import Mathlib

/-!
# Verification of the rotastellar earth-space distributed coordination engine

Shallow embedding of `crates/rotastellar-distributed/src/{federated,mesh,partitioning,sync}.rs`.

Conventions of the embedding:
* Rust `f64` values are modelled as exact rationals (`ℚ`); `f64::INFINITY` is modelled
  by `Option ℚ` with `none` standing for the infinite value.
* `f64::round` rounds half away from zero; `rustRound` below reproduces that on `ℚ`.
* `HashMap`s are modelled as association lists whose `insert` conses in front and whose
  lookup takes the first hit, which is observationally the overwrite semantics of the
  source; `HashSet` insertion order is modelled as insertion order of a duplicate-free list.
* A Rust operation that can panic (slice indexing out of bounds) or diverge (an unbounded
  `while` loop) is modelled with `Option`, `none` standing for the panic respectively for
  exhaustion of an explicit fuel parameter.
* The inertial-frame pair distance of `SpaceMesh::calculate_distance` is computed in the
  source with `f64` trigonometry and a square root; the mesh development is therefore
  parametrised by an abstract distance function `dist : OrbitalNode → OrbitalNode → ℚ`
  standing for that (nonnegative) value.  The horizon test of `has_line_of_sight`
  compares `dist ≤ 2·√((R+minAlt)² − R²)`; we embed it with both sides squared, which
  agrees with the source whenever `dist` is nonnegative.
-/

namespace RotaStellar

/-- `f64::round` semantics on ℚ: round half away from zero. -/
def rustRound (x : ℚ) : ℤ :=
  if 0 ≤ x then ⌊x + 1/2⌋ else ⌈x - 1/2⌉

/-- Minimum of a list of rationals (the source folds `f64::min` starting from `+∞`;
the call sites guard against the empty list, where we return 0). -/
def minList : List ℚ → ℚ
  | [] => 0
  | x :: xs => xs.foldl min x

/-- Maximum of a list of rationals (source folds `f64::max` from `-∞`). -/
def maxList : List ℚ → ℚ
  | [] => 0
  | x :: xs => xs.foldl max x

/-- `gradients.iter().enumerate().map(|(i, &v)| (i, v.abs(), v))` starting at index `i`. -/
def enumTriples (i : ℕ) : List ℚ → List (ℕ × ℚ × ℚ)
  | [] => []
  | v :: vs => (i, |v|, v) :: enumTriples (i + 1) vs

/-- Stable insertion of a triple into a list sorted descending by the middle
component, mirroring Rust's stable `sort_by(|a, b| b.1.partial_cmp(&a.1).unwrap())`. -/
def insertAbsDesc (x : ℕ × ℚ × ℚ) : List (ℕ × ℚ × ℚ) → List (ℕ × ℚ × ℚ)
  | [] => [x]
  | y :: ys => if y.2.1 ≤ x.2.1 then x :: y :: ys else y :: insertAbsDesc x ys

/-- Stable sort, descending by absolute value (the middle component). -/
def sortByAbsDesc (l : List (ℕ × ℚ × ℚ)) : List (ℕ × ℚ × ℚ) :=
  l.foldr insertAbsDesc []

/-- `let mut v = vec![0.0; n]; for (idx, x) in pairs { v[idx] = x }` (call sites keep
all indices below `n`). -/
def scatterSet (n : ℕ) (pairs : List (ℕ × ℚ)) : List ℚ :=
  pairs.foldl (fun acc p => acc.set p.1 p.2) (List.replicate n 0)

/-- `CompressionMethod` from federated.rs. -/
inductive CompressionMethod where
  | none
  | topK
  | topKQuantized
  | randomK
  | quantization
deriving DecidableEq

/-- `CompressionConfig` from federated.rs. -/
structure CompressionConfig where
  method : CompressionMethod
  k_ratio : ℚ
  quantization_bits : ℕ
  error_feedback : Bool
deriving DecidableEq

/-- `CompressedGradient` from federated.rs. -/
structure CompressedGradient where
  indices : List ℕ
  values : List ℚ
  shape : List ℕ
  original_size : ℕ
  compressed_size : ℕ
  compression_ratio : ℚ
  quantization_bits : Option ℕ
deriving DecidableEq

/-- `CompressedGradient::sparsity`. -/
def CompressedGradient.sparsity (c : CompressedGradient) : ℚ :=
  1 - (c.indices.length : ℚ) / (c.original_size : ℚ)

/-- `GradientCompressor` (configuration plus the hidden error-feedback residual). -/
structure GradientCompressor where
  config : CompressionConfig
  error_accumulator : Option (List ℚ)

/-- `GradientCompressor::quantize`: linear quantization onto `2^bits` levels spanning
`[min, max]` of the values; degenerate range passes values through unchanged. -/
def GradientCompressor.quantize (cfg : CompressionConfig) (values : List ℚ) : List ℚ :=
  if values.isEmpty then values
  else
    let min_val := minList values
    let max_val := maxList values
    let range_val := max_val - min_val
    if range_val = 0 then values
    else
      let levels : ℚ := 2 ^ cfg.quantization_bits
      let scale := range_val / (levels - 1)
      values.map (fun v => min_val + (rustRound ((v - min_val) / scale) : ℚ) * scale)

/-- The Random-K selection loop of `GradientCompressor::compress`
(`while selected.len() < k { idx = (rng_idx * 1103515245 + 12345) % n; … }`),
with explicit fuel; `none` means the source loop has not terminated within `fuel`
iterations. -/
def randomKLoop (n k : ℕ) (selected : List ℕ) (rng_idx fuel : ℕ) : Option (List ℕ) :=
  if selected.length < k then
    match fuel with
    | 0 => Option.none
    | fuel' + 1 =>
      let idx := (rng_idx * 1103515245 + 12345) % n
      randomKLoop n k (if idx ∈ selected then selected else selected ++ [idx])
        (rng_idx + 1) fuel'
  else some selected

/-- `for (w, e) in working.iter_mut().zip(errors.iter()) { *w += e }`:
elementwise addition over the common prefix, keeping the tail of `g`. -/
def addErrors (g errs : List ℚ) : List ℚ :=
  (g.zipWith (· + ·) errs) ++ g.drop errs.length

/-- `GradientCompressor::compress`.  Returns the compressed gradient together with the
updated compressor state; `none` models divergence of the Random-K selection loop
(the fuel parameter bounds its iterations). -/
def GradientCompressor.compress (c : GradientCompressor) (gradients : List ℚ)
    (fuel : ℕ) : Option (CompressedGradient × GradientCompressor) :=
  let original_size := gradients.length
  let working : List ℚ :=
    if c.config.error_feedback then
      match c.error_accumulator with
      | some errors => addErrors gradients errors
      | Option.none => gradients
    else gradients
  if c.config.method = CompressionMethod.none then
    some (⟨List.range original_size, working, [original_size], original_size,
      original_size * 4, 1, Option.none⟩, c)
  else
    let k := min (max ⌈(original_size : ℚ) * c.config.k_ratio⌉₊ 1) original_size
    let sel : Option (List ℕ × List ℚ) :=
      match c.config.method with
      | CompressionMethod.topK | CompressionMethod.topKQuantized =>
        let indexed := enumTriples 0 working
        let selected := (sortByAbsDesc indexed).take k
        some (selected.map (fun x => x.1), selected.map (fun x => x.2.2))
      | _ =>
        match randomKLoop original_size k [] 0 fuel with
        | some indices => some (indices, indices.map (fun i => working.getD i 0))
        | Option.none => Option.none
    match sel with
    | Option.none => Option.none
    | some (indices, values0) =>
      let values :=
        if c.config.method = CompressionMethod.topKQuantized ∧ ¬ values0.isEmpty then
          GradientCompressor.quantize c.config values0
        else values0
      let newAcc : Option (List ℚ) :=
        if c.config.error_feedback then
          let reconstructed := scatterSet original_size (indices.zip values)
          some ((working.zip reconstructed).map (fun p => p.1 - p.2))
        else c.error_accumulator
      let bits_per_value :=
        if c.config.method = CompressionMethod.topKQuantized then
          c.config.quantization_bits
        else 32
      let compressed_bits := indices.length * (32 + bits_per_value)
      let compressed_size := compressed_bits / 8
      some (⟨indices, values, [original_size], original_size, compressed_size,
        (compressed_size : ℚ) / ((original_size * 4 : ℕ) : ℚ),
        if c.config.method = CompressionMethod.topKQuantized then
          some c.config.quantization_bits
        else Option.none⟩,
        { c with error_accumulator := newAcc })

/-- `GradientCompressor::decompress`: scatter the values into a zero vector of length
`original_size`; `none` models the panic on an out-of-range index (or on `values`
shorter than `indices`). -/
def decompress (compressed : CompressedGradient) : Option (List ℚ) :=
  if compressed.indices.all (· < compressed.original_size) ∧
      compressed.indices.length ≤ compressed.values.length then
    some (scatterSet compressed.original_size (compressed.indices.zip compressed.values))
  else Option.none

/-- `AggregationStrategy` from federated.rs. -/
inductive AggregationStrategy where
  | fedAvg
  | asyncFedAvg
  | weightedAvg
deriving DecidableEq

/-- `GradientAggregator` state.  The pending `HashMap<String, (CompressedGradient, u64)>`
is modelled as an association list. -/
structure GradientAggregator where
  strategy : AggregationStrategy
  min_participants : ℕ
  model_size : Option ℕ
  pending_gradients : List (String × CompressedGradient × ℕ)
  round : ℕ

/-- `GradientAggregator::receive_gradients`: upsert of the node's latest submission. -/
def GradientAggregator.receive_gradients (a : GradientAggregator) (node_id : String)
    (gradients : CompressedGradient) (samples : ℕ) : GradientAggregator :=
  { a with pending_gradients :=
      (node_id, gradients, samples) :: a.pending_gradients.filter (fun p => p.1 ≠ node_id) }

/-- `GradientAggregator::num_participants`. -/
def GradientAggregator.num_participants (a : GradientAggregator) : ℕ :=
  a.pending_gradients.length

/-- `GradientAggregator::ready_to_aggregate`. -/
def GradientAggregator.ready_to_aggregate (a : GradientAggregator) : Bool :=
  a.min_participants ≤ a.num_participants

/-- `aggregated[idx] += v * weight` over a list of (index, value) pairs; `none` models
the panic when an index is out of bounds for the aggregation buffer. -/
def scatterAddInto (acc : List ℚ) (pairs : List (ℕ × ℚ)) (weight : ℚ) : Option (List ℚ) :=
  match pairs with
  | [] => some acc
  | (idx, v) :: rest =>
    if idx < acc.length then
      scatterAddInto (acc.set idx (acc.getD idx 0 + v * weight)) rest weight
    else Option.none

/-- The per-gradient scatter of `GradientAggregator::fed_avg` / `async_fed_avg`:
each pending gradient contributes `value * weight(g)` at its indices. -/
def aggLoop (weightOf : CompressedGradient × ℕ → ℚ) :
    List (String × CompressedGradient × ℕ) → List ℚ → Option (List ℚ)
  | [], acc => some acc
  | (_, grad, samples) :: rest, acc =>
    if grad.indices.length ≤ grad.values.length then
      match scatterAddInto acc (grad.indices.zip grad.values) (weightOf (grad, samples)) with
      | some acc' => aggLoop weightOf rest acc'
      | Option.none => Option.none
    else Option.none

/-- `GradientAggregator::fed_avg`: weight each node by `samples / total_samples`. -/
def GradientAggregator.fed_avg (a : GradientAggregator) (model_size : ℕ) :
    Option (List ℚ) :=
  let total_samples : ℕ := (a.pending_gradients.map (fun p => p.2.2)).sum
  aggLoop (fun p => (p.2 : ℚ) / (total_samples : ℚ)) a.pending_gradients
    (List.replicate model_size 0)

/-- `GradientAggregator::async_fed_avg`: uniform weight `1 / participant_count`. -/
def GradientAggregator.async_fed_avg (a : GradientAggregator) (model_size : ℕ) :
    Option (List ℚ) :=
  let n : ℚ := (a.pending_gradients.length : ℚ)
  aggLoop (fun _ => 1 / n) a.pending_gradients (List.replicate model_size 0)

/-- The model size used for scattering in `GradientAggregator::aggregate`: the cached
size, or the `original_size` of the first pending submission. -/
def GradientAggregator.scatterSize (a : GradientAggregator) : ℕ :=
  match a.model_size with
  | some m => m
  | Option.none =>
    match a.pending_gradients.head? with
    | some p => p.2.1.original_size
    | Option.none => 0

/-- `GradientAggregator::aggregate`.  The outer `Option` models a panic inside the
scatter (`none`); `Except.error` is the source's `Err("No gradients to aggregate")`. -/
def GradientAggregator.aggregate (a : GradientAggregator) :
    Option (Except String (List ℚ) × GradientAggregator) :=
  if a.pending_gradients.isEmpty then
    some (Except.error "No gradients to aggregate", a)
  else
    let model_size := a.scatterSize
    let result : Option (List ℚ) :=
      match a.strategy with
      | AggregationStrategy.fedAvg | AggregationStrategy.weightedAvg =>
        a.fed_avg model_size
      | AggregationStrategy.asyncFedAvg => a.async_fed_avg model_size
    match result with
    | Option.none => Option.none
    | some r =>
      some (Except.ok r, { a with pending_gradients := [], round := a.round + 1 })

/-! ## Space mesh (mesh.rs) -/

/-- Speed of light, km/s (`SpaceMesh::SPEED_OF_LIGHT_KM_S = 299792.458`). -/
def speedOfLightKmS : ℚ := 299792458 / 1000

/-- Earth radius, km (`SpaceMesh::EARTH_RADIUS_KM`). -/
def earthRadiusKm : ℚ := 6371

/-- `LinkType` from mesh.rs. -/
inductive LinkType where
  | optical
  | rf
  | hybrid
deriving DecidableEq

/-- `OrbitalNode` from mesh.rs. -/
structure OrbitalNode where
  node_id : String
  orbit_altitude_km : ℚ
  orbit_inclination_deg : ℚ
  raan_deg : ℚ
  mean_anomaly_deg : ℚ
  isl_range_km : ℚ
  isl_bandwidth_gbps : ℚ
  compute_tflops : ℚ
deriving DecidableEq

/-- `ISLLink` from mesh.rs. -/
structure ISLLink where
  source_id : String
  target_id : String
  distance_km : ℚ
  bandwidth_gbps : ℚ
  latency_ms : ℚ
  link_type : LinkType
  active : Bool
deriving DecidableEq

/-- `Route` from mesh.rs.  `min_bandwidth_gbps = none` models `f64::INFINITY`
(the unconstrained bandwidth of a zero-hop route). -/
structure Route where
  source_id : String
  destination_id : String
  path : List String
  total_distance_km : ℚ
  total_latency_ms : ℚ
  min_bandwidth_gbps : Option ℚ
  num_hops : ℕ
deriving DecidableEq

/-- `Route::is_valid`. -/
def Route.is_valid (r : Route) : Bool :=
  2 ≤ r.path.length

/-- First-match association-list lookup (HashMap `get` under cons-in-front insertion). -/
def lookupA {α : Type} (m : List (String × α)) (k : String) : Option α :=
  (m.find? (fun p => p.1 == k)).map (fun p => p.2)

/-- `SpaceMesh` state.  `nodes`, `links`, `adjacency` model the three `HashMap`s. -/
structure SpaceMesh where
  default_isl_range_km : ℚ
  nodes : List (String × OrbitalNode)
  links : List (String × ISLLink)
  adjacency : List (String × List String)

/-- `SpaceMesh::add_node`. -/
def SpaceMesh.add_node (m : SpaceMesh) (node : OrbitalNode) : SpaceMesh :=
  { m with
    nodes := (node.node_id, node) :: m.nodes.filter (fun p => p.1 ≠ node.node_id),
    adjacency := (node.node_id, []) :: m.adjacency.filter (fun p => p.1 ≠ node.node_id) }

/-- The link key `format!("{}-{}", id1, id2)`. -/
def pairKey (id1 id2 : String) : String := id1 ++ "-" ++ id2

/-- Radicand of the horizon test of `SpaceMesh::has_line_of_sight`:
`(R + min_altitude)² − R²`. -/
def losRadicand (node1 node2 : OrbitalNode) : ℚ :=
  let min_altitude := min node1.orbit_altitude_km node2.orbit_altitude_km
  (earthRadiusKm + min_altitude) ^ 2 - earthRadiusKm ^ 2

/-- `SpaceMesh::has_line_of_sight`: the source compares
`distance ≤ 2·√((R+minAlt)² − R²)`; with a nonnegative `dist` this is equivalent to the
squared comparison embedded here (a negative radicand makes the source test false via
NaN, matching the first conjunct). -/
def has_line_of_sight (dist : OrbitalNode → OrbitalNode → ℚ)
    (node1 node2 : OrbitalNode) : Bool :=
  decide (0 ≤ losRadicand node1 node2 ∧
    (dist node1 node2) ^ 2 ≤ 4 * losRadicand node1 node2)

/-- The edge-acceptance test of `SpaceMesh::update_topology`:
`distance <= max_range && has_line_of_sight`. -/
def acceptLink (dist : OrbitalNode → OrbitalNode → ℚ)
    (node1 node2 : OrbitalNode) : Bool :=
  let distance := dist node1 node2
  let max_range := min node1.isl_range_km node2.isl_range_km
  decide (distance ≤ max_range) && has_line_of_sight dist node1 node2

/-- The forward link record built by `update_topology` for an accepted pair. -/
def mkLink (dist : OrbitalNode → OrbitalNode → ℚ) (id1 id2 : String)
    (node1 node2 : OrbitalNode) : ISLLink :=
  let distance := dist node1 node2
  let bandwidth := min node1.isl_bandwidth_gbps node2.isl_bandwidth_gbps
  let latency := distance / speedOfLightKmS * 1000
  ⟨id1, id2, distance, bandwidth, latency, LinkType.optical, true⟩

/-- HashSet insertion into an adjacency entry (append if absent). -/
def adjInsert (m : List (String × List String)) (k v : String) :
    List (String × List String) :=
  m.map (fun p => if p.1 = k then (p.1, if v ∈ p.2 then p.2 else p.2 ++ [v]) else p)

/-- Processing of one `(id1, id2)` pair inside the double loop of `update_topology`. -/
def processPair (dist : OrbitalNode → OrbitalNode → ℚ) (st : SpaceMesh)
    (id1 id2 : String) : SpaceMesh :=
  match lookupA st.nodes id1, lookupA st.nodes id2 with
  | some node1, some node2 =>
    if acceptLink dist node1 node2 then
      let link1 := mkLink dist id1 id2 node1 node2
      let link2 := { link1 with source_id := id2, target_id := id1 }
      { st with
        links := (pairKey id2 id1, link2) :: (pairKey id1 id2, link1) :: st.links,
        adjacency := adjInsert (adjInsert st.adjacency id1 id2) id2 id1 }
    else st
  | _, _ => st

/-- Inner loop of `update_topology`: pair `id1` with each later id. -/
def processInner (dist : OrbitalNode → OrbitalNode → ℚ) (id1 : String)
    (rest : List String) (st : SpaceMesh) : SpaceMesh :=
  rest.foldl (fun s id2 => processPair dist s id1 id2) st

/-- Outer loop of `update_topology` over `i < j` index pairs. -/
def processOuter (dist : OrbitalNode → OrbitalNode → ℚ) :
    List String → SpaceMesh → SpaceMesh
  | [], st => st
  | id1 :: rest, st => processOuter dist rest (processInner dist id1 rest st)

/-- `SpaceMesh::update_topology`: clear links and adjacency, then rebuild over every
unordered node pair. -/
def SpaceMesh.update_topology (dist : OrbitalNode → OrbitalNode → ℚ)
    (mesh : SpaceMesh) : SpaceMesh :=
  let cleared := { mesh with
    links := ([] : List (String × ISLLink)),
    adjacency := mesh.nodes.map (fun p => (p.1, ([] : List String))) }
  processOuter dist (mesh.nodes.map (fun p => p.1)) cleared

/-! ### Dijkstra (`SpaceMesh::find_route`) -/

/-- Distance-map lookup with `unwrap_or(INFINITY)`: `none` is `+∞`. -/
def distOf (ds : List (String × Option ℚ)) (k : String) : Option ℚ :=
  match lookupA ds k with
  | some v => v
  | Option.none => Option.none

/-- `new_cost < distances[neighbor]` where the right side may be `+∞`. -/
def ltOpt (c : ℚ) : Option ℚ → Bool
  | Option.none => true
  | some v => decide (c < v)

/-- Dijkstra working state: distance and predecessor maps, visited set, priority queue. -/
structure DijkState where
  distances : List (String × Option ℚ)
  predecessors : List (String × Option String)
  visited : List String
  pq : List (ℚ × String)

/-- Pop a minimum-cost entry (the `BinaryHeap` of reversed-`Ord` `DijkstraState`s pops a
minimum-cost element; ties, unspecified in the source, resolve to the first). -/
def popMin : List (ℚ × String) → Option ((ℚ × String) × List (ℚ × String))
  | [] => Option.none
  | x :: xs =>
    match popMin xs with
    | Option.none => some (x, [])
    | some (m, rest) => if x.1 ≤ m.1 then some (x, xs) else some (m, x :: rest)

/-- Relaxation of one neighbor inside the Dijkstra loop. -/
def relaxNeighbor (links : List (String × ISLLink)) (node_id : String) (cost : ℚ)
    (s : DijkState) (neighbor_id : String) : DijkState :=
  if neighbor_id ∈ s.visited then s
  else
    match lookupA links (pairKey node_id neighbor_id) with
    | some link =>
      if link.active then
        let new_cost := cost + link.latency_ms
        if ltOpt new_cost (distOf s.distances neighbor_id) then
          { s with
            distances := (neighbor_id, some new_cost) :: s.distances,
            predecessors := (neighbor_id, some node_id) :: s.predecessors,
            pq := s.pq ++ [(new_cost, neighbor_id)] }
        else s
      else s
    | Option.none => s

/-- The `while let Some(..) = pq.pop()` loop of `find_route`, with fuel. -/
def dijkstraLoop (links : List (String × ISLLink))
    (adjacency : List (String × List String)) (destination_id : String) :
    DijkState → ℕ → DijkState
  | st, 0 => st
  | st, fuel + 1 =>
    match popMin st.pq with
    | Option.none => st
    | some ((cost, node_id), pq') =>
      if node_id ∈ st.visited then
        dijkstraLoop links adjacency destination_id { st with pq := pq' } fuel
      else
        let st1 := { st with visited := node_id :: st.visited, pq := pq' }
        if node_id = destination_id then st1
        else
          let neighbors := (lookupA adjacency node_id).getD []
          let st2 := neighbors.foldl (relaxNeighbor links node_id cost) st1
          dijkstraLoop links adjacency destination_id st2 fuel

/-- Predecessor-chain walk (`while let Some(id) = current`), with fuel; the source list
is acyclic in every reachable state, so the fuel is immaterial there. -/
def buildPath (preds : List (String × Option String)) : Option String → ℕ → List String
  | _, 0 => []
  | Option.none, _ => []
  | some id, fuel + 1 =>
    id :: buildPath preds
      (match lookupA preds id with
        | some p => p
        | Option.none => Option.none) fuel

/-- The invalid route returned for unknown ids or an unreachable destination. -/
def invalidRoute (source_id destination_id : String) : Route :=
  ⟨source_id, destination_id, [], 0, 0, some 0, 0⟩

/-- Fold of the final per-hop totals loop of `find_route`
(distance sum, latency sum, running minimum bandwidth with `none = +∞`). -/
def routeTotals (links : List (String × ISLLink)) (steps : List (String × String)) :
    ℚ × ℚ × Option ℚ :=
  steps.foldl (fun acc pr =>
    match lookupA links (pairKey pr.1 pr.2) with
    | some link =>
      (acc.1 + link.distance_km, acc.2.1 + link.latency_ms,
        some (match acc.2.2 with
          | Option.none => link.bandwidth_gbps
          | some b => min b link.bandwidth_gbps))
    | Option.none => acc) (0, 0, Option.none)

/-- `SpaceMesh::find_route`. -/
def SpaceMesh.find_route (mesh : SpaceMesh) (source_id destination_id : String) : Route :=
  if (lookupA mesh.nodes source_id).isNone ∨ (lookupA mesh.nodes destination_id).isNone then
    invalidRoute source_id destination_id
  else if source_id = destination_id then
    ⟨source_id, destination_id, [source_id], 0, 0, Option.none, 0⟩
  else
    let init : DijkState :=
      { distances := (source_id, some 0) :: mesh.nodes.map (fun p => (p.1, Option.none)),
        predecessors := mesh.nodes.map (fun p => (p.1, Option.none)),
        visited := [],
        pq := [(0, source_id)] }
    let adjTotal := (mesh.adjacency.map (fun p => p.2.length)).sum
    let fuel := (1 + adjTotal) * (1 + adjTotal) + mesh.nodes.length + 2
    let final := dijkstraLoop mesh.links mesh.adjacency destination_id init fuel
    match distOf final.distances destination_id with
    | Option.none => invalidRoute source_id destination_id
    | some _ =>
      let path :=
        (buildPath final.predecessors (some destination_id) (mesh.nodes.length + 1)).reverse
      let totals := routeTotals mesh.links (path.zip path.tail)
      { source_id := source_id
        destination_id := destination_id
        path := path
        total_distance_km := (rustRound (totals.1 * 100) : ℚ) / 100
        total_latency_ms := (rustRound (totals.2.1 * 1000) : ℚ) / 1000
        min_bandwidth_gbps := some ((totals.2.2).getD 0)
        num_hops := 0 }

/-- One directed hop of the adjacency structure. -/
def MeshEdge (adjacency : List (String × List String)) (u v : String) : Prop :=
  v ∈ (lookupA adjacency u).getD []

/-- Connectivity along the adjacency structure (reflexive-transitive closure). -/
def MeshReaches (adjacency : List (String × List String)) (u v : String) : Prop :=
  Relation.ReflTransGen (MeshEdge adjacency) u v

/-! ## Model partitioning (partitioning.rs) -/

/-- `LayerType` from partitioning.rs. -/
inductive LayerType where
  | linear
  | conv2d
  | attention
  | embedding
  | normalization
  | activation
  | pooling
  | other
deriving DecidableEq

/-- `PlacementLocation` from partitioning.rs. -/
inductive PlacementLocation where
  | ground
  | orbital
  | split
deriving DecidableEq

/-- `OptimizationObjective` from partitioning.rs. -/
inductive OptimizationObjective where
  | minimizeLatency
  | minimizeBandwidth
  | balance
  | maximizeThroughput
deriving DecidableEq

/-- `LayerProfile` from partitioning.rs. -/
structure LayerProfile where
  name : String
  layer_type : LayerType
  params : ℕ
  flops : ℕ
  input_size : ℕ
  output_size : ℕ
deriving DecidableEq

/-- `ModelProfile` from partitioning.rs. -/
structure ModelProfile where
  layers : List LayerProfile
  name : String
deriving DecidableEq

/-- `ModelProfile::total_flops`. -/
def ModelProfile.total_flops (m : ModelProfile) : ℕ :=
  (m.layers.map (fun l => l.flops)).sum

/-- `ModelProfile::num_layers`. -/
def ModelProfile.num_layers (m : ModelProfile) : ℕ :=
  m.layers.length

/-- `LayerPlacement` from partitioning.rs. -/
structure LayerPlacement where
  layer_name : String
  location : PlacementLocation
  node_id : Option String
  estimated_latency_ms : ℚ
  data_transfer_bytes : ℕ
deriving DecidableEq

/-- `PartitionPlan` from partitioning.rs. -/
structure PartitionPlan where
  model_name : String
  placements : List LayerPlacement
  total_latency_ms : ℚ
  ground_orbital_transfers : ℕ
  total_transfer_bytes : ℕ
  objective : OptimizationObjective
deriving DecidableEq

/-- `PartitionOptimizer` from partitioning.rs. -/
structure PartitionOptimizer where
  ground_compute_tflops : ℚ
  orbital_compute_tflops : ℚ
  orbit_altitude_km : ℚ
  uplink_bandwidth_mbps : ℚ
  downlink_bandwidth_mbps : ℚ
deriving DecidableEq

/-- The per-layer loop body of `PartitionOptimizer::create_plan`, recursing over the
layers with their running index; returns (placements, total latency, total transfer
bytes, number of transfers). -/
def createPlanLoop (o : PartitionOptimizer) (split_idx total_len : ℕ) :
    List LayerProfile → ℕ → List LayerPlacement × ℚ × ℕ × ℕ
  | [], _ => ([], 0, 0, 0)
  | layer :: rest, i =>
    let location :=
      if i < split_idx then PlacementLocation.ground else PlacementLocation.orbital
    let compute_tflops :=
      if location = PlacementLocation.ground then o.ground_compute_tflops
      else o.orbital_compute_tflops
    let base_latency : ℚ := (layer.flops : ℚ) / (compute_tflops * 1000000000000) * 1000
    let atCut := i = split_idx ∧ 0 < split_idx ∧ split_idx < total_len
    let transfer_bytes : ℕ := if atCut then layer.input_size else 0
    let layer_latency : ℚ :=
      if atCut then
        base_latency +
          ((layer.input_size : ℚ) * 8) / (o.uplink_bandwidth_mbps * 1000000) * 1000 +
          o.orbit_altitude_km / speedOfLightKmS * 1000
      else base_latency
    let placement : LayerPlacement :=
      ⟨layer.name, location, Option.none, layer_latency, transfer_bytes⟩
    let r := createPlanLoop o split_idx total_len rest (i + 1)
    (placement :: r.1, layer_latency + r.2.1, transfer_bytes + r.2.2.1,
      (if atCut then 1 else 0) + r.2.2.2)

/-- `PartitionOptimizer::create_plan`. -/
def PartitionOptimizer.create_plan (o : PartitionOptimizer) (model : ModelProfile)
    (split_idx : ℕ) (objective : OptimizationObjective) : PartitionPlan :=
  let r := createPlanLoop o split_idx model.layers.length model.layers 0
  ⟨model.name, r.1, r.2.1, r.2.2.2, r.2.2.1, objective⟩

/-- The scan of `PartitionOptimizer::find_best_latency_split` over candidate cuts
`0 ..= layers.len()`, keeping the first strict minimum. -/
def bestLatencyScan (o : PartitionOptimizer) (model : ModelProfile) :
    List ℕ → ℕ → Option ℚ → ℕ
  | [], best_idx, _ => best_idx
  | i :: rest, best_idx, best =>
    let lat := (o.create_plan model i OptimizationObjective.minimizeLatency).total_latency_ms
    match best with
    | Option.none => bestLatencyScan o model rest i (some lat)
    | some b =>
      if lat < b then bestLatencyScan o model rest i (some lat)
      else bestLatencyScan o model rest best_idx (some b)

/-- `PartitionOptimizer::find_best_latency_split` (`best_latency` starts at `+∞`,
modelled by `none`). -/
def PartitionOptimizer.find_best_latency_split (o : PartitionOptimizer)
    (model : ModelProfile) : ℕ :=
  bestLatencyScan o model (List.range (model.layers.length + 1)) 0 Option.none

/-- The scan of `PartitionOptimizer::find_min_bandwidth_split` (`min_size` starts at
`u64::MAX`; every real `output_size` is below it, modelled by `none`). -/
def minBandwidthScan : List LayerProfile → ℕ → ℕ → Option ℕ → ℕ
  | [], min_idx, _, _ => min_idx
  | layer :: rest, min_idx, i, min_size =>
    match min_size with
    | Option.none => minBandwidthScan rest (i + 1) (i + 1) (some layer.output_size)
    | some m =>
      if layer.output_size < m then
        minBandwidthScan rest (i + 1) (i + 1) (some layer.output_size)
      else minBandwidthScan rest min_idx (i + 1) (some m)

/-- `PartitionOptimizer::find_min_bandwidth_split`. -/
def PartitionOptimizer.find_min_bandwidth_split (_o : PartitionOptimizer)
    (model : ModelProfile) : ℕ :=
  minBandwidthScan model.layers 0 0 Option.none

/-- The first-crossing loop of `PartitionOptimizer::find_balanced_split`. -/
def balancedLoop (target : ℚ) : List LayerProfile → ℚ → ℕ → ℕ → ℕ
  | [], _, _, n => n
  | layer :: rest, cumulative, i, n =>
    let cumulative' := cumulative + (layer.flops : ℚ)
    if target ≤ cumulative' then i + 1 else balancedLoop target rest cumulative' (i + 1) n

/-- `PartitionOptimizer::find_balanced_split`. -/
def PartitionOptimizer.find_balanced_split (o : PartitionOptimizer)
    (model : ModelProfile) : ℕ :=
  let total_flops : ℚ := (model.total_flops : ℚ)
  let target := total_flops * o.ground_compute_tflops /
    (o.ground_compute_tflops + o.orbital_compute_tflops)
  balancedLoop target model.layers 0 0 model.layers.length

/-- `PartitionOptimizer::optimize`. -/
def PartitionOptimizer.optimize (o : PartitionOptimizer) (model : ModelProfile)
    (objective : OptimizationObjective) : PartitionPlan :=
  let split_idx :=
    match objective with
    | OptimizationObjective.minimizeLatency => o.find_best_latency_split model
    | OptimizationObjective.minimizeBandwidth => o.find_min_bandwidth_split model
    | _ => o.find_balanced_split model
  o.create_plan model split_idx objective

/-! ## Sync scheduling (sync.rs) -/

/-- `Priority` from sync.rs, with its discriminant values. -/
inductive Priority where
  | critical
  | high
  | normal
  | low
deriving DecidableEq

/-- The `u8` discriminant of a priority (`Critical = 0 < High = 1 < Normal = 2 < Low = 3`;
a lower value is a higher priority). -/
def Priority.val : Priority → ℕ
  | Priority.critical => 0
  | Priority.high => 1
  | Priority.normal => 2
  | Priority.low => 3

/-- `SyncTask` from sync.rs. -/
structure SyncTask where
  task_id : String
  node_id : String
  data_size_bytes : ℕ
  priority : Priority
  description : String
deriving DecidableEq

/-- `PriorityQueue` from sync.rs (`BinaryHeap<SyncTask>` modelled as the list of its
elements plus the id counter). -/
structure PriorityQueue where
  heap : List SyncTask
  counter : ℕ
deriving DecidableEq

/-- `PriorityQueue::new`. -/
def PriorityQueue.new : PriorityQueue := ⟨[], 0⟩

/-- `PriorityQueue::add_task`: assigns the monotonically increasing id
`task_{counter}` and pushes the task. -/
def PriorityQueue.add_task (q : PriorityQueue) (node_id : String)
    (data_size_bytes : ℕ) (priority : Priority) (description : String) :
    String × PriorityQueue :=
  let counter := q.counter + 1
  let task_id := "task_" ++ toString counter
  (task_id,
    ⟨q.heap ++ [⟨task_id, node_id, data_size_bytes, priority, description⟩], counter⟩)

/-- Pop a maximum element under `Ord for SyncTask` (which compares reversed priority
discriminants, so a minimal `Priority.val`); ties, unspecified by `BinaryHeap`,
resolve to the first such element. -/
def popMaxTask : List SyncTask → Option (SyncTask × List SyncTask)
  | [] => Option.none
  | t :: ts =>
    match popMaxTask ts with
    | Option.none => some (t, [])
    | some (m, rest) =>
      if t.priority.val ≤ m.priority.val then some (t, ts) else some (m, t :: rest)

/-- `PriorityQueue::pop_task`. -/
def PriorityQueue.pop_task (q : PriorityQueue) : Option (SyncTask × PriorityQueue) :=
  (popMaxTask q.heap).map (fun p => (p.1, ⟨p.2, q.counter⟩))

/-- `PriorityQueue::size`. -/
def PriorityQueue.size (q : PriorityQueue) : ℕ := q.heap.length

/-! ## Helper lemmas -/

lemma popMaxTask_ne_none (t : SyncTask) (ts : List SyncTask) :
    popMaxTask (t :: ts) ≠ Option.none := by
  cases h : popMaxTask ts with
  | none => simp [popMaxTask, h]
  | some p =>
    obtain ⟨m, rest⟩ := p
    by_cases hle : t.priority.val ≤ m.priority.val <;> simp [popMaxTask, h, hle]

lemma popMaxTask_max : ∀ (l : List SyncTask) (t : SyncTask) (rest : List SyncTask),
    popMaxTask l = some (t, rest) → ∀ u ∈ l, t.priority.val ≤ u.priority.val := by
  intro l
  induction l with
  | nil => intro t rest h; simp [popMaxTask] at h
  | cons x xs ih =>
    intro t rest h u hu
    rcases List.mem_cons.mp hu with hux | hux
    all_goals rcases hm : popMaxTask xs with _ | ⟨m, mrest⟩
    · have hxs : xs = [] := by
        cases xs with
        | nil => rfl
        | cons y ys => exact absurd hm (popMaxTask_ne_none y ys)
      subst hxs
      simp [popMaxTask] at h
      rw [hux, ← h.1]
    · by_cases hle : x.priority.val ≤ m.priority.val
      · simp [popMaxTask, hm, hle] at h
        rw [hux, ← h.1]
      · simp [popMaxTask, hm, hle] at h
        rw [hux, ← h.1]
        exact le_of_lt (lt_of_not_le hle)
    · have hxs : xs = [] := by
        cases xs with
        | nil => rfl
        | cons y ys => exact absurd hm (popMaxTask_ne_none y ys)
      subst hxs
      simp at hux
    · by_cases hle : x.priority.val ≤ m.priority.val
      · simp [popMaxTask, hm, hle] at h
        exact le_trans (h.1 ▸ hle) (ih m mrest hm u hux)
      · simp [popMaxTask, hm, hle] at h
        exact h.1 ▸ ih m mrest hm u hux

/-! ## C9: priority queue pops a maximal-tier task -/

/-- C9: For every non-empty priority queue, `pop_task` returns a task whose priority
tier is maximal (Critical > High > Normal > Low, i.e. minimal discriminant) among all
queued tasks; in particular, enqueuing Low, Critical, High in that order and popping
returns the Critical task (`task_2`). -/
theorem pop_task_returns_maximal_priority :
    (∀ (q : PriorityQueue) (t : SyncTask) (q' : PriorityQueue),
      q.pop_task = some (t, q') → ∀ u ∈ q.heap, t.priority.val ≤ u.priority.val) ∧
    ((((((PriorityQueue.new.add_task "node-1" 1000 Priority.low "low task").2.add_task
          "node-2" 2000 Priority.critical "critical task").2.add_task
          "node-3" 1500 Priority.high "high task").2.pop_task).map
        (fun p => (p.1.priority, p.1.task_id))) =
      some (Priority.critical, "task_2")) := by
  constructor
  · intro q t q' h u hu
    unfold PriorityQueue.pop_task at h
    rcases hp : popMaxTask q.heap with _ | ⟨t', rest⟩
    · rw [hp] at h; simp at h
    · rw [hp] at h
      simp at h
      obtain ⟨ht, -⟩ := h
      rw [← ht]
      exact popMaxTask_max q.heap t' rest hp u hu
  · decide

/-- Witness for C9: a concrete one-task queue, popped. -/
theorem pop_task_returns_maximal_priority_witness :
    ((⟨[⟨"task_1", "n", 5, Priority.high, "d"⟩], 1⟩ : PriorityQueue).pop_task =
      some (⟨"task_1", "n", 5, Priority.high, "d"⟩, ⟨[], 1⟩)) ∧
    (⟨"task_1", "n", 5, Priority.high, "d"⟩ : SyncTask).priority.val ≤
      (⟨"task_1", "n", 5, Priority.high, "d"⟩ : SyncTask).priority.val := by
  refine ⟨by decide, ?_⟩
  exact pop_task_returns_maximal_priority.1
    ⟨[⟨"task_1", "n", 5, Priority.high, "d"⟩], 1⟩
    ⟨"task_1", "n", 5, Priority.high, "d"⟩ ⟨[], 1⟩ (by decide)
    ⟨"task_1", "n", 5, Priority.high, "d"⟩ (by decide)

/-! ## C3: the Random-K selection loop diverges on a length-5 input -/

lemma randomK_lcg_mod_five (m : ℕ) : (m * 1103515245 + 12345) % 5 = 0 := by
  omega

lemma randomKLoop_five_none :
    ∀ (fuel rng : ℕ) (s : List ℕ), s.length ≤ 1 → (∀ x ∈ s, x = 0) →
      randomKLoop 5 5 s rng fuel = Option.none := by
  intro fuel
  induction fuel with
  | zero =>
    intro rng s hlen _
    unfold randomKLoop
    have : s.length < 5 := by omega
    simp [this]
  | succ f ih =>
    intro rng s hlen hmem
    unfold randomKLoop
    have hlt : s.length < 5 := by omega
    simp only [hlt, if_true]
    rw [randomK_lcg_mod_five rng]
    by_cases h0 : 0 ∈ s
    · simp only [h0, if_true]
      exact ih (rng + 1) s hlen hmem
    · simp only [h0, if_false]
      have hs : s = [] := by
        cases s with
        | nil => rfl
        | cons a as =>
          exfalso
          apply h0
          have ha : a = 0 := hmem a (List.mem_cons_self a as)
          rw [← ha]
          exact List.mem_cons_self a as
      subst hs
      exact ih (rng + 1) [0] (by simp) (by simp)

/-- C3 (code bug): with method Random-K, `k_ratio = 1` and the length-5 gradient
`[1,2,3,4,5]`, the selection loop of `compress` generates only index 0
(the LCG multiplier `1103515245` and increment `12345` are both divisible by 5),
so it never collects `k = 5` distinct indices: for every iteration bound the
embedded loop reports divergence, whereas the claim asserts termination with
`k` distinct indices. -/
theorem random_k_compress_diverges_on_length_five :
    ∀ fuel : ℕ,
      GradientCompressor.compress
        ⟨⟨CompressionMethod.randomK, 1, 8, false⟩, Option.none⟩
        [1, 2, 3, 4, 5] fuel = Option.none := by
  intro fuel
  have h := randomKLoop_five_none fuel 0 [] (by simp) (by simp)
  norm_num +decide [GradientCompressor.compress, h]

/-! ## C2: compress performs no validation of the quantization bit-width -/

/-- C2 (amended): `compress` never validates `quantization_bits`; with method
TopKQuantized it always returns a normal compressed gradient recording the
configured bit-width, whatever that bit-width is — there is no
`UnsupportedParameter` (or any other) failure path in the compressor. -/
theorem compress_accepts_any_quantization_bits :
    ∀ (comp : GradientCompressor) (g : List ℚ) (fuel : ℕ),
      comp.config.method = CompressionMethod.topKQuantized →
      ∃ res : CompressedGradient × GradientCompressor,
        comp.compress g fuel = some res ∧
        res.1.quantization_bits = some comp.config.quantization_bits := by
  intro comp g fuel h
  unfold GradientCompressor.compress
  rw [h]
  simp

/-- Witness for C2: bit-width 7 (outside `{2,4,8,16,32}`) is accepted. -/
theorem compress_accepts_any_quantization_bits_witness :
    ((⟨⟨CompressionMethod.topKQuantized, 1, 7, false⟩, Option.none⟩ :
        GradientCompressor).config.method = CompressionMethod.topKQuantized) ∧
    (∃ res : CompressedGradient × GradientCompressor,
      (⟨⟨CompressionMethod.topKQuantized, 1, 7, false⟩, Option.none⟩ :
        GradientCompressor).compress [0, 1, 10] 0 = some res ∧
      res.1.quantization_bits =
        some (⟨⟨CompressionMethod.topKQuantized, 1, 7, false⟩, Option.none⟩ :
          GradientCompressor).config.quantization_bits) :=
  ⟨rfl, compress_accepts_any_quantization_bits
    ⟨⟨CompressionMethod.topKQuantized, 1, 7, false⟩, Option.none⟩ [0, 1, 10] 0 rfl⟩

/-- C2 (counterexample to the claim as stated): calling `compress` with
`quantization_bits = 7 ∉ {2,4,8,16,32}` surfaces no typed failure at all — the
(total) compressor silently quantizes onto `2^7` levels and returns a normal
compressed gradient.  In the source the signature is
`fn compress(&mut self, gradients: &[f64]) -> CompressedGradient`: no error type
exists, and no `UnsupportedParameter` variant exists anywhere in the repository. -/
theorem compress_unsupported_bits_no_failure :
    ((7 : ℕ) ∉ ([2, 4, 8, 16, 32] : List ℕ)) ∧
    GradientCompressor.compress
        ⟨⟨CompressionMethod.topKQuantized, 1, 7, false⟩, Option.none⟩ [0, 1, 10] 0 =
      some (⟨[2, 1, 0], [10, 130/127, 0], [3], 3, 14, 7/6, some 7⟩,
        ⟨⟨CompressionMethod.topKQuantized, 1, 7, false⟩, Option.none⟩) := by
  refine ⟨by decide, ?_⟩
  norm_num +decide [GradientCompressor.compress, enumTriples, sortByAbsDesc, insertAbsDesc,
    GradientCompressor.quantize, minList, maxList, rustRound, min_def, max_def]

/-! ## C1: compress/decompress round trip -/

/-- A valid selection: distinct in-range indices paired with the exact gradient values. -/
def SelOK (g : List ℚ) (indices : List ℕ) (values : List ℚ) : Prop :=
  indices.Nodup ∧ values.length = indices.length ∧
  ∀ pr ∈ indices.zip values, pr.1 < g.length ∧ pr.2 = g.getD pr.1 0

lemma scatter_foldl_spec :
    ∀ (pairs : List (ℕ × ℚ)) (acc : List ℚ),
      (pairs.map Prod.fst).Nodup → (∀ pr ∈ pairs, pr.1 < acc.length) →
      (pairs.foldl (fun a p => a.set p.1 p.2) acc).length = acc.length ∧
      ∀ j < acc.length,
        (pairs.foldl (fun a p => a.set p.1 p.2) acc).getD j 0 =
          match pairs.find? (fun pr => pr.1 == j) with
          | some pr => pr.2
          | Option.none => acc.getD j 0 := by
  intro pairs
  induction pairs with
  | nil => intro acc _ _; simp
  | cons hd rest ih =>
    intro acc hnd hrange
    obtain ⟨i, v⟩ := hd
    simp only [List.map_cons, List.nodup_cons] at hnd
    obtain ⟨hinotin, hndrest⟩ := hnd
    have hacc' : ∀ pr ∈ rest, pr.1 < (acc.set i v).length := by
      intro pr hpr
      rw [List.length_set]
      exact hrange pr (List.mem_cons_of_mem _ hpr)
    obtain ⟨ihlen, ihget⟩ := ih (acc.set i v) hndrest hacc'
    constructor
    · simp only [List.foldl_cons]
      rw [ihlen, List.length_set]
    · intro j hj
      simp only [List.foldl_cons]
      have hj' : j < (acc.set i v).length := by rwa [List.length_set]
      rw [ihget j hj']
      by_cases hij : i = j
      · subst hij
        have hfind : rest.find? (fun pr => pr.1 == i) = Option.none := by
          rw [List.find?_eq_none]
          intro pr hpr
          simp only [beq_iff_eq]
          intro hpe
          exact hinotin (hpe ▸ List.mem_map_of_mem Prod.fst hpr)
        rw [hfind]
        simp only [List.find?_cons, beq_self_eq_true]
        rw [List.getD_eq_getElem?_getD, List.getElem?_set_self (hrange (i, v) (by simp))]
        rfl
      · have : ((i, v).1 == j) = false := by simpa using hij
        simp only [List.find?_cons, this]
        rw [List.getD_eq_getElem?_getD, List.getElem?_set_ne hij,
          ← List.getD_eq_getElem?_getD]

lemma getD_replicate_zero (n j : ℕ) (hj : j < n) :
    (List.replicate n (0 : ℚ)).getD j 0 = 0 := by
  rw [List.getD_eq_getElem?_getD, List.getElem?_replicate]
  simp [hj]

lemma decompress_of_selok (g : List ℚ) (ind : List ℕ) (vals : List ℚ)
    (shape : List ℕ) (cs : ℕ) (cr : ℚ) (qb : Option ℕ) (hsel : SelOK g ind vals) :
    ∃ d, decompress ⟨ind, vals, shape, g.length, cs, cr, qb⟩ = some d ∧
      d.length = g.length ∧
      ∀ j < g.length,
        (j ∈ ind → d.getD j 0 = g.getD j 0) ∧ (j ∉ ind → d.getD j 0 = 0) := by
  obtain ⟨hnd, hlen, hmem⟩ := hsel
  have hlenle : ind.length ≤ vals.length := le_of_eq hlen.symm
  have hfst : (ind.zip vals).map Prod.fst = ind := List.map_fst_zip ind vals hlenle
  have hall : ∀ i ∈ ind, i < g.length := by
    intro i hi
    rw [← hfst] at hi
    obtain ⟨pr, hpr, hpe⟩ := List.mem_map.mp hi
    exact hpe ▸ (hmem pr hpr).1
  have hguard : (ind.all (fun i => decide (i < g.length))) = true := by
    rw [List.all_eq_true]
    intro i hi
    exact decide_eq_true (hall i hi)
  have hscatter := scatter_foldl_spec (ind.zip vals) (List.replicate g.length 0)
    (by rw [hfst]; exact hnd)
    (by intro pr hpr; rw [List.length_replicate]; exact (hmem pr hpr).1)
  refine ⟨scatterSet g.length (ind.zip vals), ?_, ?_, ?_⟩
  · unfold decompress
    simp only [hguard]
    simp [hlenle]
  · unfold scatterSet
    rw [hscatter.1, List.length_replicate]
  · intro j hj
    have hj' : j < (List.replicate g.length (0:ℚ)).length := by
      rwa [List.length_replicate]
    constructor
    · intro hjind
      have hjmap : j ∈ (ind.zip vals).map Prod.fst := by rw [hfst]; exact hjind
      obtain ⟨pr, hpr, hpe⟩ := List.mem_map.mp hjmap
      have hfind : ∃ pr', (ind.zip vals).find? (fun pr => pr.1 == j) = some pr' := by
        have : ((ind.zip vals).find? (fun pr => pr.1 == j)).isSome := by
          rw [List.find?_isSome]
          exact ⟨pr, hpr, by simpa using hpe⟩
        exact Option.isSome_iff_exists.mp this
      obtain ⟨pr', hpr'⟩ := hfind
      have hpr'mem := List.mem_of_find?_eq_some hpr'
      have hpr'eq : pr'.1 = j := by
        have := List.find?_some hpr'
        simpa using this
      unfold scatterSet
      rw [hscatter.2 j hj', hpr']
      show pr'.2 = g.getD j 0
      rw [(hmem pr' hpr'mem).2, hpr'eq]
    · intro hjnot
      have hfind : (ind.zip vals).find? (fun pr => pr.1 == j) = Option.none := by
        rw [List.find?_eq_none]
        intro pr hpr
        simp only [beq_iff_eq]
        intro hpe
        exact hjnot (hpe ▸ (hfst ▸ List.mem_map_of_mem Prod.fst hpr))
      unfold scatterSet
      rw [hscatter.2 j hj', hfind, getD_replicate_zero _ _ hj]

lemma zip_range'_getD :
    ∀ (g : List ℚ) (s : ℕ) (pr : ℕ × ℚ), pr ∈ (List.range' s g.length).zip g →
      s ≤ pr.1 ∧ pr.1 - s < g.length ∧ pr.2 = g.getD (pr.1 - s) 0 := by
  intro g
  induction g with
  | nil => intro s pr hpr; simp at hpr
  | cons x xs ih =>
    intro s pr hpr
    simp only [List.length_cons, List.range'_succ, List.zip_cons_cons,
      List.mem_cons] at hpr
    rcases hpr with hpr | hpr
    · subst hpr
      simp
    · obtain ⟨h1, h2, h3⟩ := ih (s + 1) pr hpr
      refine ⟨by omega, ?_, ?_⟩
      · simp only [List.length_cons]
        omega
      · rw [h3]
        have : pr.1 - s = (pr.1 - (s + 1)) + 1 := by omega
        rw [this]
        simp

lemma selok_range (g : List ℚ) : SelOK g (List.range g.length) g := by
  refine ⟨List.nodup_range _, by simp, ?_⟩
  intro pr hpr
  rw [List.range_eq_range'] at hpr
  obtain ⟨h1, h2, h3⟩ := zip_range'_getD g 0 pr hpr
  simp only [Nat.sub_zero] at h2 h3
  exact ⟨h2, h3⟩

lemma enumTriples_mem :
    ∀ (g : List ℚ) (i : ℕ) (p : ℕ × ℚ × ℚ), p ∈ enumTriples i g →
      i ≤ p.1 ∧ p.1 - i < g.length ∧ p.2.2 = g.getD (p.1 - i) 0 := by
  intro g
  induction g with
  | nil => intro i p hp; simp [enumTriples] at hp
  | cons x xs ih =>
    intro i p hp
    simp only [enumTriples, List.mem_cons] at hp
    rcases hp with hp | hp
    · subst hp; simp
    · obtain ⟨h1, h2, h3⟩ := ih (i + 1) p hp
      refine ⟨by omega, ?_, ?_⟩
      · simp only [List.length_cons]
        omega
      · rw [h3]
        have : p.1 - i = (p.1 - (i + 1)) + 1 := by omega
        rw [this]
        simp

lemma enumTriples_map_fst :
    ∀ (g : List ℚ) (i : ℕ), (enumTriples i g).map Prod.fst = List.range' i g.length := by
  intro g
  induction g with
  | nil => intro i; simp [enumTriples]
  | cons x xs ih => intro i; simp [enumTriples, List.range'_succ, ih]

lemma insertAbsDesc_perm (x : ℕ × ℚ × ℚ) :
    ∀ l : List (ℕ × ℚ × ℚ), (insertAbsDesc x l).Perm (x :: l) := by
  intro l
  induction l with
  | nil => simp [insertAbsDesc]
  | cons y ys ih =>
    unfold insertAbsDesc
    by_cases h : y.2.1 ≤ x.2.1
    · simp [h]
    · simp only [h, if_false]
      exact (List.Perm.cons y ih).trans (List.Perm.swap x y ys)

lemma sortByAbsDesc_perm :
    ∀ l : List (ℕ × ℚ × ℚ), (sortByAbsDesc l).Perm l := by
  intro l
  induction l with
  | nil => simp [sortByAbsDesc]
  | cons x xs ih =>
    have : sortByAbsDesc (x :: xs) = insertAbsDesc x (sortByAbsDesc xs) := rfl
    rw [this]
    exact (insertAbsDesc_perm x (sortByAbsDesc xs)).trans (List.Perm.cons x ih)

lemma selok_topK (g : List ℚ) (k : ℕ) :
    SelOK g (((sortByAbsDesc (enumTriples 0 g)).take k).map (fun x => x.1))
      (((sortByAbsDesc (enumTriples 0 g)).take k).map (fun x => x.2.2)) := by
  set S := sortByAbsDesc (enumTriples 0 g) with hS
  have hperm : S.Perm (enumTriples 0 g) := sortByAbsDesc_perm _
  refine ⟨?_, by simp, ?_⟩
  · have hmapS : (S.map Prod.fst).Perm ((enumTriples 0 g).map Prod.fst) :=
      hperm.map Prod.fst
    have hndS : (S.map Prod.fst).Nodup := by
      apply hmapS.symm.nodup
      rw [enumTriples_map_fst]
      exact List.nodup_range' 0 g.length
    have hsub : ((S.take k).map Prod.fst).Sublist (S.map Prod.fst) := by
      rw [List.map_take]
      exact List.take_sublist k _
    have : ((S.take k).map Prod.fst).Nodup := hsub.nodup hndS
    simpa using this
  · intro pr hpr
    rw [show (fun x : ℕ × ℚ × ℚ => x.1) = Prod.fst from rfl, List.zip_map'] at hpr
    obtain ⟨x, hx, hxe⟩ := List.mem_map.mp hpr
    have hxS : x ∈ S := (List.take_sublist k S).mem hx
    have hxg : x ∈ enumTriples 0 g := hperm.mem_iff.mp hxS
    obtain ⟨-, h2, h3⟩ := enumTriples_mem g 0 x hxg
    simp only [Nat.sub_zero] at h2 h3
    rw [← hxe]
    exact ⟨h2, h3⟩

lemma nodup_append_singleton {α : Type} (l : List α) (x : α)
    (hl : l.Nodup) (hx : x ∉ l) : (l ++ [x]).Nodup := by
  rw [List.nodup_append]
  exact ⟨hl, List.nodup_singleton x, by simpa using hx⟩

lemma randomKLoop_sound :
    ∀ (fuel n k rng : ℕ) (sel out : List ℕ), 0 < n →
      (∀ x ∈ sel, x < n) → sel.Nodup →
      randomKLoop n k sel rng fuel = some out →
      (∀ x ∈ out, x < n) ∧ out.Nodup := by
  intro fuel
  induction fuel with
  | zero =>
    intro n k rng sel out hn hmem hnd h
    unfold randomKLoop at h
    by_cases hlt : sel.length < k
    · simp [hlt] at h
    · simp only [hlt, if_false, Option.some.injEq] at h
      exact h ▸ ⟨hmem, hnd⟩
  | succ f ih =>
    intro n k rng sel out hn hmem hnd h
    unfold randomKLoop at h
    by_cases hlt : sel.length < k
    · simp only [hlt, if_true] at h
      set idx := (rng * 1103515245 + 12345) % n with hidx
      have hidxlt : idx < n := Nat.mod_lt _ hn
      by_cases hin : idx ∈ sel
      · simp only [hin, if_true] at h
        exact ih n k (rng + 1) sel out hn hmem hnd h
      · simp only [hin, if_false] at h
        refine ih n k (rng + 1) (sel ++ [idx]) out hn ?_ ?_ h
        · intro x hx
          rcases List.mem_append.mp hx with hx | hx
          · exact hmem x hx
          · simp at hx; exact hx ▸ hidxlt
        · exact nodup_append_singleton sel idx hnd hin
    · simp only [hlt, if_false, Option.some.injEq] at h
      exact h ▸ ⟨hmem, hnd⟩

lemma zip_self_map {α β : Type} :
    ∀ (l : List α) (f : α → β), l.zip (l.map f) = l.map (fun i => (i, f i)) := by
  intro l f
  induction l with
  | nil => simp
  | cons x xs ih => simp [ih]

lemma selok_randomK (g : List ℚ) (out : List ℕ)
    (hmem : ∀ x ∈ out, x < g.length) (hnd : out.Nodup) :
    SelOK g out (out.map (fun i => g.getD i 0)) := by
  refine ⟨hnd, by simp, ?_⟩
  intro pr hpr
  rw [zip_self_map] at hpr
  obtain ⟨i, hi, hie⟩ := List.mem_map.mp hpr
  rw [← hie]
  exact ⟨hmem i hi, rfl⟩

/-- C1 (amended): for every compression configuration whose method applies no
quantization (everything except TopKQuantized — note the source runs `quantize` only
for that method), on a fresh compressor, whenever `compress` returns,
`decompress (compress g)` equals `g` exactly at the selected indices and is zero at
every other index. -/
theorem compress_decompress_exact_without_quantization :
    ∀ (cfg : CompressionConfig) (g : List ℚ) (fuel : ℕ)
      (c : CompressedGradient) (st' : GradientCompressor),
      cfg.method ≠ CompressionMethod.topKQuantized →
      GradientCompressor.compress ⟨cfg, Option.none⟩ g fuel = some (c, st') →
      ∃ d, decompress c = some d ∧ d.length = g.length ∧
        ∀ j < g.length,
          (j ∈ c.indices → d.getD j 0 = g.getD j 0) ∧ (j ∉ c.indices → d.getD j 0 = 0) := by
  intro cfg g fuel c st' hm h
  unfold GradientCompressor.compress at h
  cases hmeth : cfg.method with
  | none =>
    rw [hmeth] at h
    simp at h
    obtain ⟨hc, -⟩ := h
    subst hc
    exact decompress_of_selok g _ _ _ _ _ _ (selok_range g)
  | topK =>
    rw [hmeth] at h
    simp at h
    obtain ⟨hc, -⟩ := h
    subst hc
    have hsel := selok_topK g ((⌈(g.length : ℚ) * cfg.k_ratio⌉₊ ⊔ 1) ⊓ g.length)
    rw [List.map_take, List.map_take] at hsel
    exact decompress_of_selok g _ _ _ _ _ _ hsel
  | topKQuantized => exact absurd hmeth hm
  | randomK =>
    rw [hmeth] at h
    simp at h
    rcases hr : randomKLoop g.length ((⌈(g.length : ℚ) * cfg.k_ratio⌉₊ ⊔ 1) ⊓ g.length)
        [] 0 fuel with _ | out
    · rw [hr] at h
      simp at h
    · rw [hr] at h
      simp at h
      obtain ⟨hc, -⟩ := h
      subst hc
      have hfacts : (∀ x ∈ out, x < g.length) ∧ out.Nodup := by
        rcases Nat.eq_zero_or_pos g.length with hg | hg
        · rw [hg] at hr
          rw [min_zero] at hr
          unfold randomKLoop at hr
          simp at hr
          subst hr
          exact ⟨by simp, List.nodup_nil⟩
        · exact randomKLoop_sound fuel g.length _ 0 [] out hg (by simp) List.nodup_nil hr
      have hsel := selok_randomK g out hfacts.1 hfacts.2
      simp only [List.getD_eq_getElem?_getD] at hsel
      exact decompress_of_selok g _ _ _ _ _ _ hsel
  | quantization =>
    rw [hmeth] at h
    simp at h
    rcases hr : randomKLoop g.length ((⌈(g.length : ℚ) * cfg.k_ratio⌉₊ ⊔ 1) ⊓ g.length)
        [] 0 fuel with _ | out
    · rw [hr] at h
      simp at h
    · rw [hr] at h
      simp at h
      obtain ⟨hc, -⟩ := h
      subst hc
      have hfacts : (∀ x ∈ out, x < g.length) ∧ out.Nodup := by
        rcases Nat.eq_zero_or_pos g.length with hg | hg
        · rw [hg] at hr
          rw [min_zero] at hr
          unfold randomKLoop at hr
          simp at hr
          subst hr
          exact ⟨by simp, List.nodup_nil⟩
        · exact randomKLoop_sound fuel g.length _ 0 [] out hg (by simp) List.nodup_nil hr
      have hsel := selok_randomK g out hfacts.1 hfacts.2
      simp only [List.getD_eq_getElem?_getD] at hsel
      exact decompress_of_selok g _ _ _ _ _ _ hsel

/-- Witness for C1 (amended): TopK on `[1, 2]` with `k_ratio = 1`. -/
theorem compress_decompress_exact_witness :
    (CompressionMethod.topK ≠ CompressionMethod.topKQuantized) ∧
    (GradientCompressor.compress
        ⟨⟨CompressionMethod.topK, 1, 8, false⟩, Option.none⟩ [1, 2] 0 =
      some (⟨[1, 0], [2, 1], [2], 2, 16, 2, Option.none⟩,
        ⟨⟨CompressionMethod.topK, 1, 8, false⟩, Option.none⟩)) ∧
    (∃ d, decompress ⟨[1, 0], [2, 1], [2], 2, 16, 2, Option.none⟩ = some d ∧
      d.length = ([1, 2] : List ℚ).length ∧
      ∀ j < ([1, 2] : List ℚ).length,
        (j ∈ ([1, 0] : List ℕ) → d.getD j 0 = ([1, 2] : List ℚ).getD j 0) ∧
        (j ∉ ([1, 0] : List ℕ) → d.getD j 0 = 0)) := by
  have hcompress : GradientCompressor.compress
      ⟨⟨CompressionMethod.topK, 1, 8, false⟩, Option.none⟩ [1, 2] 0 =
      some (⟨[1, 0], [2, 1], [2], 2, 16, 2, Option.none⟩,
        ⟨⟨CompressionMethod.topK, 1, 8, false⟩, Option.none⟩) := by
    norm_num +decide [GradientCompressor.compress, enumTriples, sortByAbsDesc,
      insertAbsDesc, min_def, max_def]
  exact ⟨by decide, hcompress,
    compress_decompress_exact_without_quantization
      ⟨CompressionMethod.topK, 1, 8, false⟩ [1, 2] 0
      ⟨[1, 0], [2, 1], [2], 2, 16, 2, Option.none⟩
      ⟨⟨CompressionMethod.topK, 1, 8, false⟩, Option.none⟩ (by decide) hcompress⟩

/-- C1 (counterexample to the claim as stated): with method TopKQuantized
(`k_ratio = 1`, 2 bits), gradient `[0, 1, 10]` selects index 1, yet the round trip
yields 0 there instead of `g₁ = 1` — quantization onto 4 levels spanning `[0, 10]`
moves the value, so `decompress (compress g)` is not exact at a selected index. -/
theorem compress_decompress_quantization_not_exact :
    GradientCompressor.compress
        ⟨⟨CompressionMethod.topKQuantized, 1, 2, false⟩, Option.none⟩ [0, 1, 10] 0 =
      some (⟨[2, 1, 0], [10, 0, 0], [3], 3, 12, 1, some 2⟩,
        ⟨⟨CompressionMethod.topKQuantized, 1, 2, false⟩, Option.none⟩) ∧
    (1 ∈ ([2, 1, 0] : List ℕ)) ∧
    decompress ⟨[2, 1, 0], [10, 0, 0], [3], 3, 12, 1, some 2⟩ = some [0, 0, 10] ∧
    ([0, 0, 10] : List ℚ).getD 1 0 = 0 ∧
    ([0, 1, 10] : List ℚ).getD 1 0 = 1 ∧
    ((0 : ℚ) ≠ 1) := by
  refine ⟨?_, by decide, ?_, by norm_num, by norm_num, by norm_num⟩
  · norm_num +decide [GradientCompressor.compress, enumTriples, sortByAbsDesc,
      insertAbsDesc, GradientCompressor.quantize, minList, maxList, rustRound,
      min_def, max_def]
  · norm_num [decompress, scatterSet, List.set]

/-! ## C5 / C10: aggregation -/

/-- Sum of the values a pair list carries at index `j` (a single value when the
indices are duplicate-free). -/
def sumValsAt (pairs : List (ℕ × ℚ)) (j : ℕ) : ℚ :=
  ((pairs.filter (fun pr => pr.1 == j)).map (fun pr => pr.2)).sum

/-- The value a compressed gradient records at index `j` (0 if `j` is not covered). -/
def valueAt (g : CompressedGradient) (j : ℕ) : ℚ :=
  (((g.indices.zip g.values).find? (fun pr => pr.1 == j)).map (fun pr => pr.2)).getD 0

lemma sumValsAt_eq_found :
    ∀ (ps : List (ℕ × ℚ)) (j : ℕ), (ps.map Prod.fst).Nodup →
      sumValsAt ps j = ((ps.find? (fun pr => pr.1 == j)).map (fun pr => pr.2)).getD 0 := by
  intro ps
  induction ps with
  | nil => intro j _; simp [sumValsAt]
  | cons hd rest ih =>
    intro j hnd
    simp only [List.map_cons, List.nodup_cons] at hnd
    by_cases hj : hd.1 = j
    · have hrest : ∀ pr ∈ rest, ¬(pr.1 == j) = true := by
        intro pr hpr
        simp only [beq_iff_eq]
        intro hpe
        exact hnd.1 (by rw [hj, ← hpe]; exact List.mem_map_of_mem Prod.fst hpr)
      have hfilter : rest.filter (fun pr => pr.1 == j) = [] := by
        rw [List.filter_eq_nil_iff]
        exact hrest
      have hfind : rest.find? (fun pr => pr.1 == j) = Option.none :=
        List.find?_eq_none.mpr hrest
      simp [sumValsAt, List.filter_cons, hj, hfilter, List.find?_cons, hfind]
    · have hbeq : (hd.1 == j) = false := by simpa using hj
      simp only [sumValsAt, List.filter_cons, hbeq, Bool.false_eq_true, if_false,
        List.find?_cons, cond_false]
      exact ih j hnd.2

lemma sumValsAt_eq_zero (ps : List (ℕ × ℚ)) (j : ℕ)
    (h : j ∉ ps.map Prod.fst) : sumValsAt ps j = 0 := by
  have : ps.filter (fun pr => pr.1 == j) = [] := by
    rw [List.filter_eq_nil_iff]
    intro pr hpr
    simp only [beq_iff_eq]
    intro hpe
    exact h (hpe ▸ List.mem_map_of_mem Prod.fst hpr)
  simp [sumValsAt, this]

lemma scatterAddInto_spec :
    ∀ (pairs : List (ℕ × ℚ)) (acc : List ℚ) (w : ℚ),
      (∀ pr ∈ pairs, pr.1 < acc.length) →
      ∃ out, scatterAddInto acc pairs w = some out ∧ out.length = acc.length ∧
        ∀ j < acc.length, out.getD j 0 = acc.getD j 0 + w * sumValsAt pairs j := by
  intro pairs
  induction pairs with
  | nil =>
    intro acc w _
    refine ⟨acc, rfl, rfl, ?_⟩
    intro j _
    simp [sumValsAt]
  | cons hd rest ih =>
    intro acc w hrange
    obtain ⟨i, v⟩ := hd
    have hi : i < acc.length := hrange (i, v) (by simp)
    set acc' := acc.set i (acc.getD i 0 + v * w) with hacc'
    have hlen' : acc'.length = acc.length := List.length_set acc i _
    obtain ⟨out, hout, hlenout, hval⟩ := ih acc' w (by
      intro pr hpr
      rw [hlen']
      exact hrange pr (List.mem_cons_of_mem _ hpr))
    refine ⟨out, ?_, by rw [hlenout, hlen'], ?_⟩
    · unfold scatterAddInto
      simp only [hi, if_true]
      exact hout
    · intro j hj
      have hj' : j < acc'.length := by rwa [hlen']
      rw [hval j hj']
      by_cases hij : i = j
      · subst hij
        have h1 : acc'.getD i 0 = acc.getD i 0 + v * w := by
          rw [hacc', List.getD_eq_getElem?_getD, List.getElem?_set_self hi]
          rfl
        have h2 : sumValsAt ((i, v) :: rest) i = v + sumValsAt rest i := by
          simp [sumValsAt, List.filter_cons]
        rw [h1, h2]
        ring
      · have h1 : acc'.getD j 0 = acc.getD j 0 := by
          rw [hacc', List.getD_eq_getElem?_getD, List.getElem?_set_ne hij,
            ← List.getD_eq_getElem?_getD]
        have hbeq : ((i, v).1 == j) = false := by simpa using hij
        have h2 : sumValsAt ((i, v) :: rest) j = sumValsAt rest j := by
          simp [sumValsAt, List.filter_cons, hbeq]
        rw [h1, h2]

/-- Total contribution of a pending list at index `j` under a weighting function. -/
def pendContrib (wf : CompressedGradient × ℕ → ℚ)
    (pending : List (String × CompressedGradient × ℕ)) (j : ℕ) : ℚ :=
  (pending.map (fun p =>
    wf (p.2.1, p.2.2) * sumValsAt (p.2.1.indices.zip p.2.1.values) j)).sum

lemma aggLoop_spec :
    ∀ (pending : List (String × CompressedGradient × ℕ))
      (wf : CompressedGradient × ℕ → ℚ) (acc : List ℚ),
      (∀ p ∈ pending, p.2.1.indices.length ≤ p.2.1.values.length ∧
        ∀ i ∈ p.2.1.indices, i < acc.length) →
      ∃ out, aggLoop wf pending acc = some out ∧ out.length = acc.length ∧
        ∀ j < acc.length, out.getD j 0 = acc.getD j 0 + pendContrib wf pending j := by
  intro pending
  induction pending with
  | nil =>
    intro wf acc _
    refine ⟨acc, rfl, rfl, ?_⟩
    intro j _
    simp [pendContrib]
  | cons hd rest ih =>
    intro wf acc hcond
    obtain ⟨nid, grad, samples⟩ := hd
    obtain ⟨hlens, hidx⟩ := hcond (nid, grad, samples) (by simp)
    have hrange : ∀ pr ∈ grad.indices.zip grad.values, pr.1 < acc.length := by
      intro pr hpr
      exact hidx pr.1 (List.of_mem_zip hpr).1
    obtain ⟨mid, hmid, hmidlen, hmidval⟩ :=
      scatterAddInto_spec (grad.indices.zip grad.values) acc (wf (grad, samples)) hrange
    obtain ⟨out, hout, houtlen, houtval⟩ := ih wf mid (by
      intro p hp
      refine ⟨(hcond p (List.mem_cons_of_mem _ hp)).1, ?_⟩
      intro i hi
      rw [hmidlen]
      exact (hcond p (List.mem_cons_of_mem _ hp)).2 i hi)
    refine ⟨out, ?_, by rw [houtlen, hmidlen], ?_⟩
    · unfold aggLoop
      simp only [hlens, if_true, hmid]
      exact hout
    · intro j hj
      have hj' : j < mid.length := by rwa [hmidlen]
      rw [houtval j hj', hmidval j hj]
      simp only [pendContrib, List.map_cons, List.sum_cons]
      ring

/-- C10: `aggregate()` does not hit the scatter indexing panic when every recorded
index of every pending (well-formed) gradient is below the scatter model size
(the cached `model_size`, or the `original_size` of the first pending submission);
and for a concrete pending set with mismatched `original_size` values the scatter
indexing is out of bounds (the embedded aggregate returns `none`, the model of the
Rust panic `index out of bounds`). -/
theorem aggregate_panic_free_iff_in_bounds :
    (∀ st : GradientAggregator,
      (∀ p ∈ st.pending_gradients,
        p.2.1.indices.length ≤ p.2.1.values.length ∧
        ∀ i ∈ p.2.1.indices, i < st.scatterSize) →
      (st.aggregate).isSome) ∧
    (GradientAggregator.aggregate
        ⟨AggregationStrategy.fedAvg, 1, Option.none,
          [("node-1", ⟨[0], [1], [2], 2, 8, 1, Option.none⟩, 1),
            ("node-2", ⟨[4], [1], [5], 5, 8, 1, Option.none⟩, 1)], 0⟩ =
      Option.none) := by
  constructor
  · intro st hcond
    unfold GradientAggregator.aggregate
    by_cases hempty : st.pending_gradients.isEmpty
    · simp [hempty]
    · simp only [hempty, Bool.false_eq_true, if_false]
      have hcond' : ∀ p ∈ st.pending_gradients,
          p.2.1.indices.length ≤ p.2.1.values.length ∧
          ∀ i ∈ p.2.1.indices, i < (List.replicate st.scatterSize (0:ℚ)).length := by
        intro p hp
        refine ⟨(hcond p hp).1, ?_⟩
        intro i hi
        rw [List.length_replicate]
        exact (hcond p hp).2 i hi
      cases hstrat : st.strategy with
      | fedAvg =>
        simp only [hstrat, GradientAggregator.fed_avg]
        obtain ⟨out, hout, -, -⟩ := aggLoop_spec st.pending_gradients
          (fun p => (p.2 : ℚ) / (((st.pending_gradients.map (fun p => p.2.2)).sum : ℕ) : ℚ))
          (List.replicate st.scatterSize 0) hcond'
        rw [hout]
        simp
      | weightedAvg =>
        simp only [hstrat, GradientAggregator.fed_avg]
        obtain ⟨out, hout, -, -⟩ := aggLoop_spec st.pending_gradients
          (fun p => (p.2 : ℚ) / (((st.pending_gradients.map (fun p => p.2.2)).sum : ℕ) : ℚ))
          (List.replicate st.scatterSize 0) hcond'
        rw [hout]
        simp
      | asyncFedAvg =>
        simp only [hstrat, GradientAggregator.async_fed_avg]
        obtain ⟨out, hout, -, -⟩ := aggLoop_spec st.pending_gradients
          (fun _ => 1 / ((st.pending_gradients.length : ℕ) : ℚ))
          (List.replicate st.scatterSize 0) hcond'
        rw [hout]
        simp
  · norm_num +decide [GradientAggregator.aggregate, GradientAggregator.scatterSize,
      GradientAggregator.fed_avg, aggLoop, scatterAddInto]

/-- Witness for C10: a well-formed two-node pending set aggregates without a panic. -/
theorem aggregate_panic_free_witness :
    ((∀ p ∈ (⟨AggregationStrategy.fedAvg, 1, Option.none,
        [("node-1", ⟨[0], [1], [2], 2, 8, 1, Option.none⟩, 1)], 0⟩ :
          GradientAggregator).pending_gradients,
      p.2.1.indices.length ≤ p.2.1.values.length ∧
      ∀ i ∈ p.2.1.indices,
        i < (⟨AggregationStrategy.fedAvg, 1, Option.none,
          [("node-1", ⟨[0], [1], [2], 2, 8, 1, Option.none⟩, 1)], 0⟩ :
            GradientAggregator).scatterSize)) ∧
    ((⟨AggregationStrategy.fedAvg, 1, Option.none,
        [("node-1", ⟨[0], [1], [2], 2, 8, 1, Option.none⟩, 1)], 0⟩ :
          GradientAggregator).aggregate).isSome := by
  have h : ∀ p ∈ (⟨AggregationStrategy.fedAvg, 1, Option.none,
      [("node-1", ⟨[0], [1], [2], 2, 8, 1, Option.none⟩, 1)], 0⟩ :
        GradientAggregator).pending_gradients,
      p.2.1.indices.length ≤ p.2.1.values.length ∧
      ∀ i ∈ p.2.1.indices,
        i < (⟨AggregationStrategy.fedAvg, 1, Option.none,
          [("node-1", ⟨[0], [1], [2], 2, 8, 1, Option.none⟩, 1)], 0⟩ :
            GradientAggregator).scatterSize := by decide
  exact ⟨h, aggregate_panic_free_iff_in_bounds.1 _ h⟩

lemma aggregate_eq_of_fed_avg_aggLoop (st : GradientAggregator)
    (hstrat : st.strategy = AggregationStrategy.fedAvg)
    (hne : st.pending_gradients.isEmpty = false) (out : List ℚ)
    (hout : aggLoop
      (fun p => (p.2 : ℚ) / (((st.pending_gradients.map (fun p => p.2.2)).sum : ℕ) : ℚ))
      st.pending_gradients (List.replicate st.scatterSize 0) = some out) :
    st.aggregate = some (Except.ok out,
      { st with pending_gradients := [], round := st.round + 1 }) := by
  unfold GradientAggregator.aggregate
  rw [hne]
  simp only [Bool.false_eq_true, if_false]
  rw [hstrat]
  simp only [GradientAggregator.fed_avg]
  rw [hout]

/-- C5: two nodes submitting well-formed compressed gradients of equal original
length with an equal positive sample count: `FedAvg` aggregation succeeds and
returns, at every index covered by both submissions, the arithmetic mean of the two
submitted values at that index. -/
theorem fed_avg_two_equal_nodes_mean :
    ∀ (a b : String) (g1 g2 : CompressedGradient) (s mp r : ℕ),
      0 < s →
      g1.original_size = g2.original_size →
      g1.indices.Nodup → g2.indices.Nodup →
      (∀ i ∈ g1.indices, i < g1.original_size) →
      (∀ i ∈ g2.indices, i < g2.original_size) →
      g1.values.length = g1.indices.length →
      g2.values.length = g2.indices.length →
      ∃ v st',
        GradientAggregator.aggregate
          ⟨AggregationStrategy.fedAvg, mp, Option.none, [(a, g1, s), (b, g2, s)], r⟩ =
          some (Except.ok v, st') ∧
        ∀ j, j ∈ g1.indices → j ∈ g2.indices →
          v.getD j 0 = (valueAt g1 j + valueAt g2 j) / 2 := by
  intro a b g1 g2 s mp r hs hsize hnd1 hnd2 hidx1 hidx2 hlen1 hlen2
  have hL : (⟨AggregationStrategy.fedAvg, mp, Option.none,
      [(a, g1, s), (b, g2, s)], r⟩ : GradientAggregator).scatterSize =
      g1.original_size := rfl
  have hcond : ∀ p ∈ ([(a, g1, s), (b, g2, s)] :
      List (String × CompressedGradient × ℕ)),
      p.2.1.indices.length ≤ p.2.1.values.length ∧
      ∀ i ∈ p.2.1.indices, i < (List.replicate g1.original_size (0:ℚ)).length := by
    intro p hp
    rw [List.length_replicate]
    rcases List.mem_cons.mp hp with hp | hp
    · subst hp
      exact ⟨le_of_eq hlen1.symm, hidx1⟩
    · simp only [List.mem_singleton] at hp
      subst hp
      exact ⟨le_of_eq hlen2.symm, fun i hi => hsize ▸ hidx2 i hi⟩
  obtain ⟨out, hout, hlenout, hval⟩ := aggLoop_spec [(a, g1, s), (b, g2, s)]
    (fun p => (p.2 : ℚ) /
      ((((([(a, g1, s), (b, g2, s)] : List (String × CompressedGradient × ℕ)).map
        (fun p => p.2.2)).sum : ℕ)) : ℚ))
    (List.replicate g1.original_size 0) hcond
  refine ⟨out, ⟨AggregationStrategy.fedAvg, mp, Option.none, [], r + 1⟩, ?_, ?_⟩
  · exact aggregate_eq_of_fed_avg_aggLoop
      ⟨AggregationStrategy.fedAvg, mp, Option.none, [(a, g1, s), (b, g2, s)], r⟩
      rfl rfl out hout
  · intro j hj1 hj2
    have hjlt : j < (List.replicate g1.original_size (0:ℚ)).length := by
      rw [List.length_replicate]
      exact hidx1 j hj1
    rw [hval j hjlt, getD_replicate_zero _ _ (by simpa using hjlt)]
    have hfst1 : (g1.indices.zip g1.values).map Prod.fst = g1.indices :=
      List.map_fst_zip _ _ (le_of_eq hlen1.symm)
    have hfst2 : (g2.indices.zip g2.values).map Prod.fst = g2.indices :=
      List.map_fst_zip _ _ (le_of_eq hlen2.symm)
    have hv1 : sumValsAt (g1.indices.zip g1.values) j = valueAt g1 j := by
      rw [sumValsAt_eq_found _ _ (by rw [hfst1]; exact hnd1)]
      rfl
    have hv2 : sumValsAt (g2.indices.zip g2.values) j = valueAt g2 j := by
      rw [sumValsAt_eq_found _ _ (by rw [hfst2]; exact hnd2)]
      rfl
    simp only [pendContrib, List.map_cons, List.map_nil, List.sum_cons, List.sum_nil]
    rw [hv1, hv2]
    have hs' : ((s : ℚ)) ≠ 0 := Nat.cast_ne_zero.mpr hs.ne'
    push_cast
    field_simp
    ring

/-- Witness for C5: gradients `[(0 ↦ 1), (1 ↦ 3)]` and `[(1 ↦ 5)]` of length 2,
100 samples each; the jointly covered index 1 gets `(3 + 5)/2 = 4`. -/
theorem fed_avg_two_equal_nodes_mean_witness :
    (0 < 100) ∧
    (∃ v st',
      GradientAggregator.aggregate
        ⟨AggregationStrategy.fedAvg, 2, Option.none,
          [("n1", ⟨[0, 1], [1, 3], [2], 2, 16, 2, Option.none⟩, 100),
            ("n2", ⟨[1], [5], [2], 2, 8, 1, Option.none⟩, 100)], 0⟩ =
        some (Except.ok v, st') ∧
      ∀ j, j ∈ ([0, 1] : List ℕ) → j ∈ ([1] : List ℕ) →
        v.getD j 0 = (valueAt ⟨[0, 1], [1, 3], [2], 2, 16, 2, Option.none⟩ j +
          valueAt ⟨[1], [5], [2], 2, 8, 1, Option.none⟩ j) / 2) :=
  ⟨by decide,
    fed_avg_two_equal_nodes_mean "n1" "n2"
      ⟨[0, 1], [1, 3], [2], 2, 16, 2, Option.none⟩
      ⟨[1], [5], [2], 2, 8, 1, Option.none⟩ 100 2 0
      (by decide) (by decide) (by decide) (by decide)
      (by decide) (by decide) (by decide) (by decide)⟩

/-! ## C8: balanced partitioning -/

/-- Cumulative FLOPs of the first `m` layers of a layer list, as a rational. -/
def flopsPrefixL (layers : List LayerProfile) (m : ℕ) : ℚ :=
  ((((layers.take m).map (fun l => l.flops)).sum : ℕ) : ℚ)

/-- Cumulative FLOPs of the first `m` layers of a model. -/
def prefixFlops (model : ModelProfile) (m : ℕ) : ℚ :=
  flopsPrefixL model.layers m

/-- The Balance objective's FLOPs threshold
`total_flops × ground_tflops / (ground_tflops + orbital_tflops)`. -/
def balanceTarget (o : PartitionOptimizer) (model : ModelProfile) : ℚ :=
  (model.total_flops : ℚ) * o.ground_compute_tflops /
    (o.ground_compute_tflops + o.orbital_compute_tflops)

lemma flopsPrefixL_succ (l : LayerProfile) (rest : List LayerProfile) (m : ℕ) :
    flopsPrefixL (l :: rest) (m + 1) = (l.flops : ℚ) + flopsPrefixL rest m := by
  simp [flopsPrefixL, List.take_succ_cons]

lemma balancedLoop_spec :
    ∀ (layers : List LayerProfile) (target cum : ℚ) (i n : ℕ),
      (balancedLoop target layers cum i n = n ∧
        ∀ m, 1 ≤ m → m ≤ layers.length → cum + flopsPrefixL layers m < target) ∨
      (∃ m, 1 ≤ m ∧ m ≤ layers.length ∧ balancedLoop target layers cum i n = i + m ∧
        target ≤ cum + flopsPrefixL layers m ∧
        ∀ m', 1 ≤ m' → m' < m → cum + flopsPrefixL layers m' < target) := by
  intro layers
  induction layers with
  | nil =>
    intro target cum i n
    left
    refine ⟨rfl, ?_⟩
    intro m h1 h2
    simp only [List.length_nil, Nat.le_zero] at h2
    omega
  | cons l rest ih =>
    intro target cum i n
    have hstep : balancedLoop target (l :: rest) cum i n =
        if target ≤ cum + (l.flops : ℚ) then i + 1
        else balancedLoop target rest (cum + (l.flops : ℚ)) (i + 1) n := rfl
    by_cases hc : target ≤ cum + (l.flops : ℚ)
    · right
      refine ⟨1, le_refl 1, by simp, ?_, ?_, ?_⟩
      · rw [hstep, if_pos hc]
      · rw [show (1 : ℕ) = 0 + 1 from rfl, flopsPrefixL_succ]
        simp only [flopsPrefixL, List.take_zero, List.map_nil, List.sum_nil,
          Nat.cast_zero, add_zero]
        exact hc
      · intro m' h1 h2
        omega
    · have hloop : balancedLoop target (l :: rest) cum i n =
          balancedLoop target rest (cum + (l.flops : ℚ)) (i + 1) n := by
        rw [hstep, if_neg hc]
      rcases ih target (cum + (l.flops : ℚ)) (i + 1) n with ⟨hres, hbound⟩ |
        ⟨m, h1, h2, hres, hge, hlt⟩
      · left
        refine ⟨by rw [hloop]; exact hres, ?_⟩
        intro m hm1 hm2
        match m with
        | 1 =>
          rw [show (1 : ℕ) = 0 + 1 from rfl, flopsPrefixL_succ]
          simp only [flopsPrefixL, List.take_zero, List.map_nil, List.sum_nil,
            Nat.cast_zero]
          rw [← add_assoc]
          simpa using lt_of_not_le hc
        | (mm + 2) =>
          rw [flopsPrefixL_succ, ← add_assoc]
          exact hbound (mm + 1) (by omega) (by simpa using hm2)
      · right
        refine ⟨m + 1, by omega, by simpa using h2, ?_, ?_, ?_⟩
        · rw [hloop, hres]
          omega
        · rw [flopsPrefixL_succ, ← add_assoc]
          exact hge
        · intro m' hm1 hm2
          match m' with
          | 1 =>
            rw [show (1 : ℕ) = 0 + 1 from rfl, flopsPrefixL_succ]
            simp only [flopsPrefixL, List.take_zero, List.map_nil, List.sum_nil,
              Nat.cast_zero]
            rw [← add_assoc]
            simpa using lt_of_not_le hc
          | (mm + 2) =>
            rw [flopsPrefixL_succ, ← add_assoc]
            exact hlt (mm + 1) (by omega) (by omega)

lemma createPlanLoop_placements (o : PartitionOptimizer) (split len : ℕ) :
    ∀ (layers : List LayerProfile) (i : ℕ),
      (createPlanLoop o split len layers i).1.length = layers.length ∧
      ∀ (jj : ℕ) (p : LayerPlacement),
        (createPlanLoop o split len layers i).1.get? jj = some p →
        p.location = if i + jj < split then PlacementLocation.ground
          else PlacementLocation.orbital := by
  intro layers
  induction layers with
  | nil =>
    intro i
    refine ⟨rfl, ?_⟩
    intro jj p h
    simp [createPlanLoop] at h
  | cons l rest ih =>
    intro i
    have hstep : (createPlanLoop o split len (l :: rest) i).1 =
        _ :: (createPlanLoop o split len rest (i + 1)).1 := rfl
    constructor
    · rw [hstep]
      simp [(ih (i + 1)).1]
    · intro jj p h
      rw [hstep] at h
      match jj with
      | 0 =>
        simp only [List.get?_cons_zero, Option.some.injEq] at h
        rw [← h]
        simp
      | (jjj + 1) =>
        simp only [List.get?_cons_succ] at h
        rw [(ih (i + 1)).2 jjj p h]
        have : i + 1 + jjj = i + (jjj + 1) := by omega
        rw [this]

/-- C8 (amended): for every model with at least one layer and positive total FLOPs,
with positive ground and nonnegative orbital compute rates, `optimize` with objective
Balance assigns to Ground exactly the shortest layer prefix whose cumulative FLOPs
reaches `total_flops × ground / (ground + orbital)`, and every remaining layer to
Orbital. -/
theorem balance_split_is_shortest_crossing_prefix :
    ∀ (o : PartitionOptimizer) (model : ModelProfile),
      0 < o.ground_compute_tflops → 0 ≤ o.orbital_compute_tflops →
      0 < model.total_flops →
      (balanceTarget o model ≤ prefixFlops model (o.find_balanced_split model) ∧
        ∀ m' < o.find_balanced_split model,
          prefixFlops model m' < balanceTarget o model) ∧
      ((o.optimize model OptimizationObjective.balance).placements.length =
          model.layers.length ∧
        ∀ (i : ℕ) (p : LayerPlacement),
          (o.optimize model OptimizationObjective.balance).placements.get? i = some p →
          p.location = if i < o.find_balanced_split model then PlacementLocation.ground
            else PlacementLocation.orbital) := by
  intro o model hg ho ht
  have hsum : 0 < o.ground_compute_tflops + o.orbital_compute_tflops := by linarith
  have htq : (0 : ℚ) < (model.total_flops : ℚ) := by exact_mod_cast ht
  have htarget_pos : 0 < balanceTarget o model := by
    unfold balanceTarget
    positivity
  have hlen : 1 ≤ model.layers.length := by
    rcases model with ⟨layers, name⟩
    cases layers with
    | nil => simp [ModelProfile.total_flops] at ht
    | cons a as => simp
  have htotal : prefixFlops model model.layers.length = (model.total_flops : ℚ) := by
    unfold prefixFlops flopsPrefixL ModelProfile.total_flops
    rw [List.take_of_length_le (le_refl _)]
  have htarget_le : balanceTarget o model ≤ (model.total_flops : ℚ) := by
    unfold balanceTarget
    rw [div_le_iff₀ hsum]
    have : o.ground_compute_tflops ≤ o.ground_compute_tflops + o.orbital_compute_tflops := by
      linarith
    calc (model.total_flops : ℚ) * o.ground_compute_tflops
        ≤ (model.total_flops : ℚ) * (o.ground_compute_tflops + o.orbital_compute_tflops) := by
          exact mul_le_mul_of_nonneg_left this (le_of_lt htq)
      _ = _ := rfl
  have hsplit : o.find_balanced_split model =
      balancedLoop (balanceTarget o model) model.layers 0 0 model.layers.length := rfl
  rcases balancedLoop_spec model.layers (balanceTarget o model) 0 0 model.layers.length
    with ⟨hres, hbound⟩ | ⟨m, h1, h2, hres, hge, hlt⟩
  · exfalso
    have := hbound model.layers.length hlen (le_refl _)
    rw [zero_add] at this
    have : (model.total_flops : ℚ) < balanceTarget o model := by
      rw [← htotal]
      exact this
    linarith
  · have hm : o.find_balanced_split model = m := by rw [hsplit, hres]; omega
    constructor
    · constructor
      · rw [hm]
        have := hge
        rw [zero_add] at this
        exact this
      · intro m' hm'
        rw [hm] at hm'
        match m' with
        | 0 =>
          simp only [prefixFlops, flopsPrefixL, List.take_zero, List.map_nil,
            List.sum_nil, Nat.cast_zero]
          exact htarget_pos
        | (mm + 1) =>
          have := hlt (mm + 1) (by omega) hm'
          rw [zero_add] at this
          exact this
    · have hopt : (o.optimize model OptimizationObjective.balance).placements =
          (createPlanLoop o (o.find_balanced_split model) model.layers.length
            model.layers 0).1 := rfl
      obtain ⟨hplen, hploc⟩ :=
        createPlanLoop_placements o (o.find_balanced_split model)
          model.layers.length model.layers 0
      refine ⟨by rw [hopt]; exact hplen, ?_⟩
      intro i p hp
      rw [hopt] at hp
      have := hploc i p hp
      rwa [zero_add] at this

/-- The default optimizer rates `(100, 10)` with a one-layer, 10-FLOPs model
(used by the C8 witness). -/
def o8 : PartitionOptimizer := ⟨100, 10, 550, 100, 200⟩

/-- One-layer, 10-FLOPs model (used by the C8 witness). -/
def model8 : ModelProfile := ⟨[⟨"l1", LayerType.linear, 0, 10, 4, 4⟩], "m"⟩

/-- Witness for C8 (amended): default rates (100, 10) and a single layer of 10 FLOPs;
the target is 100/11 and Ground receives the single layer. -/
theorem balance_split_witness :
    (0 < o8.ground_compute_tflops) ∧ (0 ≤ o8.orbital_compute_tflops) ∧
    (0 < model8.total_flops) ∧
    ((balanceTarget o8 model8 ≤ prefixFlops model8 (o8.find_balanced_split model8) ∧
      ∀ m' < o8.find_balanced_split model8,
        prefixFlops model8 m' < balanceTarget o8 model8) ∧
    ((o8.optimize model8 OptimizationObjective.balance).placements.length =
        model8.layers.length ∧
      ∀ (i : ℕ) (p : LayerPlacement),
        (o8.optimize model8 OptimizationObjective.balance).placements.get? i = some p →
        p.location = if i < o8.find_balanced_split model8 then PlacementLocation.ground
          else PlacementLocation.orbital)) :=
  ⟨by norm_num [o8], by norm_num [o8], by decide,
    balance_split_is_shortest_crossing_prefix o8 model8
      (by norm_num [o8]) (by norm_num [o8]) (by decide)⟩

/-- C8 (counterexample to the claim as stated): a model whose single layer has zero
FLOPs.  The balance target is 0 and the empty prefix already has cumulative FLOPs
≥ 0, so the shortest threshold-reaching prefix has length 0 — yet
`find_balanced_split` returns 1 and `optimize` assigns the layer to Ground. -/
theorem balance_split_zero_flops_counterexample :
    (PartitionOptimizer.find_balanced_split ⟨100, 10, 550, 100, 200⟩
      ⟨[⟨"l0", LayerType.linear, 0, 0, 0, 0⟩], "m"⟩ = 1) ∧
    (balanceTarget ⟨100, 10, 550, 100, 200⟩ ⟨[⟨"l0", LayerType.linear, 0, 0, 0, 0⟩], "m"⟩ ≤
      prefixFlops ⟨[⟨"l0", LayerType.linear, 0, 0, 0, 0⟩], "m"⟩ 0) ∧
    (((⟨100, 10, 550, 100, 200⟩ : PartitionOptimizer).optimize
        ⟨[⟨"l0", LayerType.linear, 0, 0, 0, 0⟩], "m"⟩
        OptimizationObjective.balance).placements.map (fun p => p.location) =
      [PlacementLocation.ground]) := by
  refine ⟨?_, ?_, ?_⟩
  · norm_num [PartitionOptimizer.find_balanced_split, balancedLoop,
      ModelProfile.total_flops]
  · norm_num [balanceTarget, prefixFlops, flopsPrefixL, ModelProfile.total_flops]
  · norm_num +decide [PartitionOptimizer.optimize, PartitionOptimizer.find_balanced_split,
      balancedLoop, ModelProfile.total_flops, PartitionOptimizer.create_plan,
      createPlanLoop]

/-! ## C4: `num_hops` is never populated -/

/-- A node at mean anomaly 0 (C4/C7 concrete meshes). -/
def nodeA : OrbitalNode := ⟨"a", 550, 51, 0, 0, 5000, 10, 10⟩

/-- A node at mean anomaly 30 (C4/C7 concrete meshes). -/
def nodeB : OrbitalNode := ⟨"b", 550, 51, 0, 30, 5000, 10, 10⟩

/-- A constant 1000 km separation (within range and line-of-sight). -/
def distC : OrbitalNode → OrbitalNode → ℚ := fun _ _ => 1000

/-- Two registered nodes 1000 km apart, topology rebuilt: one bidirectional link. -/
def mesh2 : SpaceMesh :=
  SpaceMesh.update_topology distC
    ⟨5000, [("a", nodeA), ("b", nodeB)], [], [("a", []), ("b", [])]⟩

/-- C4 (code bug): `find_route` returns `num_hops = 0` for every route — the source
builds the final `Route` with `num_hops: 0, // Will be set below` and never sets it.
On a two-node mesh with one link, the returned route has a two-entry path (one hop)
but `num_hops = 0` instead of `path.len() - 1 = 1`. -/
theorem find_route_num_hops_never_set :
    (mesh2.find_route "a" "b").path = ["a", "b"] ∧
    (mesh2.find_route "a" "b").path.length - 1 = 1 ∧
    (mesh2.find_route "a" "b").num_hops = 0 := by
  norm_num +decide [mesh2, nodeA, nodeB, distC, SpaceMesh.update_topology,
    SpaceMesh.find_route, processOuter, processInner, processPair, lookupA, acceptLink,
    has_line_of_sight, losRadicand, earthRadiusKm, mkLink, adjInsert, pairKey,
    speedOfLightKmS, dijkstraLoop, popMin, relaxNeighbor, distOf, ltOpt, buildPath,
    routeTotals, invalidRoute, rustRound, min_def, max_def]

/-! ## C7: find_route special cases -/

/-- Dijkstra loop invariant: every node with a finite tentative distance is reachable
from the source along the adjacency structure, and every queued entry has a finite
tentative distance. -/
def DijkInv (adjacency : List (String × List String)) (s : String)
    (st : DijkState) : Prop :=
  (∀ v q, distOf st.distances v = some q → MeshReaches adjacency s v) ∧
  (∀ p ∈ st.pq, ∃ q, distOf st.distances p.2 = some q)

lemma popMin_mem :
    ∀ (l : List (ℚ × String)) (m : ℚ × String) (rest : List (ℚ × String)),
      popMin l = some (m, rest) → m ∈ l ∧ ∀ x ∈ rest, x ∈ l := by
  intro l
  induction l with
  | nil => intro m rest h; simp [popMin] at h
  | cons x xs ih =>
    intro m rest h
    unfold popMin at h
    rcases hm : popMin xs with _ | ⟨m', rest'⟩
    · rw [hm] at h
      simp at h
      exact ⟨by simp [h.1], by simp [h.2]⟩
    · rw [hm] at h
      by_cases hle : x.1 ≤ m'.1
      · simp [hle] at h
        refine ⟨by simp [h.1], ?_⟩
        intro y hy
        rw [← h.2] at hy
        exact List.mem_cons_of_mem _ hy
      · simp [hle] at h
        obtain ⟨hm', hrest⟩ := h
        refine ⟨List.mem_cons_of_mem _ (hm' ▸ (ih m' rest' hm).1), ?_⟩
        intro y hy
        rw [← hrest] at hy
        rcases List.mem_cons.mp hy with hy | hy
        · exact hy ▸ List.mem_cons_self x xs
        · exact List.mem_cons_of_mem _ ((ih m' rest' hm).2 y hy)

lemma distOf_cons_some (ds : List (String × Option ℚ)) (k : String) (c : ℚ)
    (v : String) (q : ℚ) :
    distOf ((k, some c) :: ds) v = some q → (v = k ∧ q = c) ∨ distOf ds v = some q := by
  intro h
  unfold distOf lookupA at h
  by_cases hv : k = v
  · left
    simp [List.find?_cons, hv] at h
    exact ⟨hv.symm, h.symm⟩
  · right
    have : (((k, some c)).1 == v) = false := by simpa using hv
    simp only [List.find?_cons, this, cond_false] at h
    exact h

lemma distOf_cons_isSome (ds : List (String × Option ℚ)) (k : String) (c : ℚ)
    (v : String) (q : ℚ) (h : distOf ds v = some q) :
    ∃ q', distOf ((k, some c) :: ds) v = some q' := by
  unfold distOf lookupA
  by_cases hv : k = v
  · refine ⟨c, ?_⟩
    simp [List.find?_cons, hv]
  · have : (((k, some c)).1 == v) = false := by simpa using hv
    simp only [List.find?_cons, this, cond_false]
    exact ⟨q, h⟩

lemma relaxNeighbor_inv (links : List (String × ISLLink))
    (adjacency : List (String × List String)) (s u : String) (cost : ℚ)
    (st : DijkState) (nb : String)
    (hinv : DijkInv adjacency s st)
    (hu : MeshReaches adjacency s u)
    (hnb : nb ∈ (lookupA adjacency u).getD []) :
    DijkInv adjacency s (relaxNeighbor links u cost st nb) ∧
    (relaxNeighbor links u cost st nb).visited = st.visited ∧
    ∀ v q, distOf st.distances v = some q →
      ∃ q', distOf (relaxNeighbor links u cost st nb).distances v = some q' := by
  unfold relaxNeighbor
  by_cases h1 : nb ∈ st.visited
  · simp only [h1, if_true]
    exact ⟨hinv, trivial, fun v q h => ⟨q, h⟩⟩
  · simp only [h1, if_false]
    rcases hlk : lookupA links (pairKey u nb) with _ | link
    · exact ⟨hinv, rfl, fun v q h => ⟨q, h⟩⟩
    · by_cases hact : link.active
      · simp only [hact, if_true]
        by_cases hlt : ltOpt (cost + link.latency_ms) (distOf st.distances nb) = true
        · simp only [hlt, if_true]
          have hreach_nb : MeshReaches adjacency s nb :=
            Relation.ReflTransGen.tail hu hnb
          refine ⟨⟨?_, ?_⟩, trivial, ?_⟩
          · intro v q h
            rcases distOf_cons_some _ _ _ _ _ h with ⟨hv, -⟩ | h'
            · exact hv ▸ hreach_nb
            · exact hinv.1 v q h'
          · intro p hp
            simp only [List.mem_append] at hp
            rcases hp with hp | hp
            · obtain ⟨q, hq⟩ := hinv.2 p hp
              exact distOf_cons_isSome _ _ _ _ _ hq
            · simp at hp
              subst hp
              refine ⟨cost + link.latency_ms, ?_⟩
              unfold distOf lookupA
              simp [List.find?_cons]
          · intro v q h
            exact distOf_cons_isSome _ _ _ _ _ h
        · simp only [Bool.not_eq_true] at hlt
          simp only [hlt, Bool.false_eq_true, if_false]
          exact ⟨hinv, trivial, fun v q h => ⟨q, h⟩⟩
      · simp only [hact, Bool.false_eq_true, if_false]
        exact ⟨hinv, trivial, fun v q h => ⟨q, h⟩⟩

lemma relaxFold_inv (links : List (String × ISLLink))
    (adjacency : List (String × List String)) (s u : String) (cost : ℚ) :
    ∀ (lst : List String) (st : DijkState),
      (∀ x ∈ lst, x ∈ (lookupA adjacency u).getD []) →
      DijkInv adjacency s st → MeshReaches adjacency s u →
      DijkInv adjacency s (lst.foldl (relaxNeighbor links u cost) st) := by
  intro lst
  induction lst with
  | nil => intro st _ hinv _; exact hinv
  | cons nb rest ih =>
    intro st hsub hinv hu
    simp only [List.foldl_cons]
    exact ih (relaxNeighbor links u cost st nb)
      (fun x hx => hsub x (List.mem_cons_of_mem _ hx))
      (relaxNeighbor_inv links adjacency s u cost st nb hinv hu
        (hsub nb (List.mem_cons_self _ _))).1 hu

lemma dijkstraLoop_inv (links : List (String × ISLLink))
    (adjacency : List (String × List String)) (dest s : String) :
    ∀ (fuel : ℕ) (st : DijkState), DijkInv adjacency s st →
      DijkInv adjacency s (dijkstraLoop links adjacency dest st fuel) := by
  intro fuel
  induction fuel with
  | zero => intro st hinv; exact hinv
  | succ f ih =>
    intro st hinv
    unfold dijkstraLoop
    rcases hp : popMin st.pq with _ | ⟨⟨cost, u⟩, pq'⟩
    · exact hinv
    · have hmem := popMin_mem st.pq (cost, u) pq' hp
      have hinv_pq' : ∀ (pq'' : List (ℚ × String)), (∀ x ∈ pq'', x ∈ st.pq) →
          DijkInv adjacency s ⟨st.distances, st.predecessors, st.visited, pq''⟩ := by
        intro pq'' hsub
        exact ⟨hinv.1, fun p hp' => hinv.2 p (hsub p hp')⟩
      by_cases hvis : u ∈ st.visited
      · simp only [hvis, if_true]
        exact ih _ (hinv_pq' pq' hmem.2)
      · simp only [hvis, if_false]
        have hreach_u : MeshReaches adjacency s u := by
          obtain ⟨q, hq⟩ := hinv.2 (cost, u) hmem.1
          exact hinv.1 u q hq
        have hinv1 : DijkInv adjacency s
            ⟨st.distances, st.predecessors, u :: st.visited, pq'⟩ :=
          ⟨hinv.1, fun p hp' => hinv.2 p (hmem.2 p hp')⟩
        by_cases hdest : u = dest
        · simp only [hdest, if_true]
          exact hinv1
        · simp only [hdest, if_false]
          exact ih _ (relaxFold_inv links adjacency s u cost _ _
            (fun x hx => hx) hinv1 hreach_u)

lemma distOf_map_none :
    ∀ (l : List (String × OrbitalNode)) (v : String),
      distOf (l.map (fun p => (p.1, (Option.none : Option ℚ)))) v = Option.none := by
  intro l
  induction l with
  | nil => intro v; rfl
  | cons x xs ih =>
    intro v
    unfold distOf lookupA
    by_cases hv : x.1 = v
    · simp [List.find?_cons, hv]
    · have : ((x.1, (Option.none : Option ℚ)).1 == v) = false := by simpa using hv
      simp only [List.map_cons, List.find?_cons, this, cond_false]
      exact ih v

/-- C7: (i) `find_route` with identical known source and destination returns the
single-entry, zero-hop, zero-latency route with infinite (`none`) minimum bandwidth;
(ii) `find_route` with an unknown source or destination id returns the invalid
(empty-path) route rather than an error; (iii) `find_route` between known nodes with
no path in the adjacency structure returns the invalid (empty-path) route. -/
theorem find_route_special_cases :
    (∀ (mesh : SpaceMesh) (s : String) (ns : OrbitalNode),
      lookupA mesh.nodes s = some ns →
      mesh.find_route s s = ⟨s, s, [s], 0, 0, Option.none, 0⟩) ∧
    (∀ (mesh : SpaceMesh) (s d : String),
      (lookupA mesh.nodes s = Option.none ∨ lookupA mesh.nodes d = Option.none) →
      mesh.find_route s d = invalidRoute s d) ∧
    (∀ (mesh : SpaceMesh) (s d : String) (ns nd : OrbitalNode),
      lookupA mesh.nodes s = some ns → lookupA mesh.nodes d = some nd →
      s ≠ d → ¬ MeshReaches mesh.adjacency s d →
      mesh.find_route s d = invalidRoute s d) := by
  refine ⟨?_, ?_, ?_⟩
  · intro mesh s ns hs
    unfold SpaceMesh.find_route
    rw [hs]
    simp
  · intro mesh s d h
    unfold SpaceMesh.find_route
    have hcond : (lookupA mesh.nodes s).isNone = true ∨
        (lookupA mesh.nodes d).isNone = true := by
      rcases h with h | h
      · left; simp [h]
      · right; simp [h]
    rw [if_pos hcond]
  · intro mesh s d ns nd hs hd hne hnr
    unfold SpaceMesh.find_route
    rw [hs, hd]
    simp only [Option.isNone_some, Bool.false_eq_true, or_self, if_false, hne]
    have hinv0 : DijkInv mesh.adjacency s
        ⟨(s, some 0) :: mesh.nodes.map (fun p => (p.1, Option.none)),
          mesh.nodes.map (fun p => (p.1, Option.none)), [], [(0, s)]⟩ := by
      constructor
      · intro v q h
        rcases distOf_cons_some _ _ _ _ _ h with ⟨hv, -⟩ | h'
        · exact hv ▸ Relation.ReflTransGen.refl
        · rw [distOf_map_none] at h'
          exact absurd h' (by simp)
      · intro p hp
        simp only [List.mem_singleton] at hp
        refine ⟨0, ?_⟩
        rw [hp]
        unfold distOf lookupA
        simp [List.find?_cons]
    have hinv := dijkstraLoop_inv mesh.links mesh.adjacency d s
      ((1 + (mesh.adjacency.map (fun p => p.2.length)).sum) *
        (1 + (mesh.adjacency.map (fun p => p.2.length)).sum) + mesh.nodes.length + 2)
      _ hinv0
    rcases hfd : distOf (dijkstraLoop mesh.links mesh.adjacency d
        ⟨(s, some 0) :: mesh.nodes.map (fun p => (p.1, Option.none)),
          mesh.nodes.map (fun p => (p.1, Option.none)), [], [(0, s)]⟩
        ((1 + (mesh.adjacency.map (fun p => p.2.length)).sum) *
          (1 + (mesh.adjacency.map (fun p => p.2.length)).sum) +
          mesh.nodes.length + 2)).distances d with _ | q
    · rfl
    · exact absurd (hinv.1 d q hfd) hnr

/-- Witness for C7: the one-node mesh, routed from "a" to "a", plus an unknown id. -/
theorem find_route_special_cases_witness :
    (lookupA (⟨5000, [("a", nodeA)], [], [("a", [])]⟩ : SpaceMesh).nodes "a" =
      some nodeA) ∧
    ((⟨5000, [("a", nodeA)], [], [("a", [])]⟩ : SpaceMesh).find_route "a" "a" =
      ⟨"a", "a", ["a"], 0, 0, Option.none, 0⟩) := by
  have h : lookupA (⟨5000, [("a", nodeA)], [], [("a", [])]⟩ : SpaceMesh).nodes "a" =
      some nodeA := by decide
  exact ⟨h, find_route_special_cases.1 ⟨5000, [("a", nodeA)], [], [("a", [])]⟩ "a" nodeA h⟩

/-! ## C6: the update_topology edge invariant -/

lemma processPair_nodes (dist : OrbitalNode → OrbitalNode → ℚ) (st : SpaceMesh)
    (id1 id2 : String) : (processPair dist st id1 id2).nodes = st.nodes := by
  unfold processPair
  rcases lookupA st.nodes id1 with _ | n1 <;> rcases lookupA st.nodes id2 with _ | n2 <;>
    try rfl
  by_cases h : acceptLink dist n1 n2 = true <;> simp [h]

lemma processInner_nodes (dist : OrbitalNode → OrbitalNode → ℚ) (id1 : String) :
    ∀ (rest : List String) (st : SpaceMesh),
      (processInner dist id1 rest st).nodes = st.nodes := by
  intro rest
  induction rest with
  | nil => intro st; rfl
  | cons id2 rest' ih =>
    intro st
    show (processInner dist id1 rest' (processPair dist st id1 id2)).nodes = st.nodes
    rw [ih, processPair_nodes]

lemma processPair_links_other (dist : OrbitalNode → OrbitalNode → ℚ) (st : SpaceMesh)
    (id1 id2 : String) (K : String) (h1 : pairKey id1 id2 ≠ K)
    (h2 : pairKey id2 id1 ≠ K) :
    lookupA (processPair dist st id1 id2).links K = lookupA st.links K := by
  unfold processPair
  rcases lookupA st.nodes id1 with _ | n1 <;> rcases lookupA st.nodes id2 with _ | n2 <;>
    try rfl
  by_cases h : acceptLink dist n1 n2 = true
  · have hb1 : (pairKey id2 id1 == K) = false := by simpa using h2
    have hb2 : (pairKey id1 id2 == K) = false := by simpa using h1
    simp [h, lookupA, List.find?_cons, hb1, hb2]
  · simp [h]

lemma processPair_not_accept (dist : OrbitalNode → OrbitalNode → ℚ) (st : SpaceMesh)
    (id1 id2 : String) (n1 n2 : OrbitalNode)
    (h1 : lookupA st.nodes id1 = some n1) (h2 : lookupA st.nodes id2 = some n2)
    (hacc : acceptLink dist n1 n2 = false) :
    processPair dist st id1 id2 = st := by
  unfold processPair
  rw [h1, h2]
  simp [hacc]

lemma processPair_links_self (dist : OrbitalNode → OrbitalNode → ℚ) (st : SpaceMesh)
    (id1 id2 : String) (n1 n2 : OrbitalNode)
    (h1 : lookupA st.nodes id1 = some n1) (h2 : lookupA st.nodes id2 = some n2)
    (hacc : acceptLink dist n1 n2 = true)
    (hkne : pairKey id2 id1 ≠ pairKey id1 id2) :
    lookupA (processPair dist st id1 id2).links (pairKey id1 id2) =
      some (mkLink dist id1 id2 n1 n2) ∧
    lookupA (processPair dist st id1 id2).links (pairKey id2 id1) =
      some { mkLink dist id1 id2 n1 n2 with source_id := id2, target_id := id1 } := by
  have hb : (pairKey id2 id1 == pairKey id1 id2) = false := by simpa using hkne
  unfold processPair
  rw [h1, h2]
  simp [hacc, lookupA, List.find?_cons, hb]

lemma processInner_links_other (dist : OrbitalNode → OrbitalNode → ℚ) (id1 : String) :
    ∀ (rest : List String) (st : SpaceMesh) (K : String),
      (∀ x ∈ rest, pairKey id1 x ≠ K ∧ pairKey x id1 ≠ K) →
      lookupA (processInner dist id1 rest st).links K = lookupA st.links K := by
  intro rest
  induction rest with
  | nil => intro st K _; rfl
  | cons id2 rest' ih =>
    intro st K hk
    show lookupA (processInner dist id1 rest' (processPair dist st id1 id2)).links K = _
    rw [ih (processPair dist st id1 id2) K
      (fun x hx => hk x (List.mem_cons_of_mem _ hx))]
    exact processPair_links_other dist st id1 id2 K
      (hk id2 (List.mem_cons_self _ _)).1 (hk id2 (List.mem_cons_self _ _)).2

lemma processInner_links_hit (dist : OrbitalNode → OrbitalNode → ℚ) (id1 : String) :
    ∀ (rest : List String) (st : SpaceMesh) (b : String) (n1 nb : OrbitalNode),
      b ∈ rest → rest.Nodup →
      lookupA st.nodes id1 = some n1 → lookupA st.nodes b = some nb →
      pairKey b id1 ≠ pairKey id1 b →
      (∀ x ∈ rest, x ≠ b →
        pairKey id1 x ≠ pairKey id1 b ∧ pairKey x id1 ≠ pairKey id1 b ∧
        pairKey id1 x ≠ pairKey b id1 ∧ pairKey x id1 ≠ pairKey b id1) →
      (lookupA (processInner dist id1 rest st).links (pairKey id1 b) =
        if acceptLink dist n1 nb = true then some (mkLink dist id1 b n1 nb)
        else lookupA st.links (pairKey id1 b)) ∧
      (lookupA (processInner dist id1 rest st).links (pairKey b id1) =
        if acceptLink dist n1 nb = true then
          some { mkLink dist id1 b n1 nb with source_id := b, target_id := id1 }
        else lookupA st.links (pairKey b id1)) := by
  intro rest
  induction rest with
  | nil => intro st b n1 nb hb; simp at hb
  | cons id2 rest' ih =>
    intro st b n1 nb hb hnd hn1 hnb hkne hkeys
    simp only [List.nodup_cons] at hnd
    by_cases hid2 : id2 = b
    · subst hid2
      have hbrest' : id2 ∉ rest' := hnd.1
      have hother : ∀ x ∈ rest', pairKey id1 x ≠ pairKey id1 id2 ∧
          pairKey x id1 ≠ pairKey id1 id2 := by
        intro x hx
        have hxne : x ≠ id2 := fun he => hbrest' (he ▸ hx)
        obtain ⟨k1, k2, -, -⟩ := hkeys x (List.mem_cons_of_mem _ hx) hxne
        exact ⟨k1, k2⟩
      have hother2 : ∀ x ∈ rest', pairKey id1 x ≠ pairKey id2 id1 ∧
          pairKey x id1 ≠ pairKey id2 id1 := by
        intro x hx
        have hxne : x ≠ id2 := fun he => hbrest' (he ▸ hx)
        obtain ⟨-, -, k3, k4⟩ := hkeys x (List.mem_cons_of_mem _ hx) hxne
        exact ⟨k3, k4⟩
      rw [show processInner dist id1 (id2 :: rest') st =
        processInner dist id1 rest' (processPair dist st id1 id2) from rfl]
      rw [processInner_links_other dist id1 rest' _ _ hother,
        processInner_links_other dist id1 rest' _ _ hother2]
      by_cases hacc : acceptLink dist n1 nb = true
      · obtain ⟨hA, hB⟩ := processPair_links_self dist st id1 id2 n1 nb hn1 hnb hacc hkne
        rw [hA, hB, if_pos hacc, if_pos hacc]
        exact ⟨rfl, rfl⟩
      · have hstay := processPair_not_accept dist st id1 id2 n1 nb hn1 hnb
          (by simpa using hacc)
        rw [hstay, if_neg hacc, if_neg hacc]
        exact ⟨rfl, rfl⟩
    · have hbrest' : b ∈ rest' := by
        rcases List.mem_cons.mp hb with h | h
        · exact absurd h.symm hid2
        · exact h
      obtain ⟨k1, k2, k3, k4⟩ := hkeys id2 (List.mem_cons_self _ _) hid2
      have hst' : lookupA (processPair dist st id1 id2).links (pairKey id1 b) =
          lookupA st.links (pairKey id1 b) :=
        processPair_links_other dist st id1 id2 _ k1 k2
      have hst'2 : lookupA (processPair dist st id1 id2).links (pairKey b id1) =
          lookupA st.links (pairKey b id1) :=
        processPair_links_other dist st id1 id2 _ k3 k4
      have hnodes := processPair_nodes dist st id1 id2
      have := ih (processPair dist st id1 id2) b n1 nb hbrest' hnd.2
        (by rw [hnodes]; exact hn1) (by rw [hnodes]; exact hnb) hkne
        (fun x hx hxb => hkeys x (List.mem_cons_of_mem _ hx) hxb)
      rw [show processInner dist id1 (id2 :: rest') st =
        processInner dist id1 rest' (processPair dist st id1 id2) from rfl]
      rw [this.1, this.2, hst', hst'2]
      exact ⟨rfl, rfl⟩

lemma processOuter_links_other (dist : OrbitalNode → OrbitalNode → ℚ) :
    ∀ (L : List String) (st : SpaceMesh) (K : String),
      (∀ x ∈ L, ∀ y ∈ L, pairKey x y ≠ K) →
      lookupA (processOuter dist L st).links K = lookupA st.links K := by
  intro L
  induction L with
  | nil => intro st K _; rfl
  | cons id1 rest ih =>
    intro st K hk
    show lookupA (processOuter dist rest (processInner dist id1 rest st)).links K = _
    rw [ih (processInner dist id1 rest st) K (fun x hx y hy =>
      hk x (List.mem_cons_of_mem _ hx) y (List.mem_cons_of_mem _ hy))]
    exact processInner_links_other dist id1 rest st K (fun x hx =>
      ⟨hk id1 (List.mem_cons_self _ _) x (List.mem_cons_of_mem _ hx),
        hk x (List.mem_cons_of_mem _ hx) id1 (List.mem_cons_self _ _)⟩)

lemma processOuter_nodes (dist : OrbitalNode → OrbitalNode → ℚ) :
    ∀ (L : List String) (st : SpaceMesh), (processOuter dist L st).nodes = st.nodes := by
  intro L
  induction L with
  | nil => intro st; rfl
  | cons id1 rest ih =>
    intro st
    show (processOuter dist rest (processInner dist id1 rest st)).nodes = st.nodes
    rw [ih, processInner_nodes]

lemma acceptLink_symm (dist : OrbitalNode → OrbitalNode → ℚ)
    (hsymm : ∀ x y, dist x y = dist y x) (n1 n2 : OrbitalNode) :
    acceptLink dist n1 n2 = acceptLink dist n2 n1 := by
  unfold acceptLink has_line_of_sight losRadicand
  rw [hsymm n1 n2, min_comm n1.isl_range_km n2.isl_range_km,
    min_comm n1.orbit_altitude_km n2.orbit_altitude_km]

lemma mkLink_swap (dist : OrbitalNode → OrbitalNode → ℚ)
    (hsymm : ∀ x y, dist x y = dist y x) (a b : String) (na nb : OrbitalNode) :
    mkLink dist b a nb na =
      { mkLink dist a b na nb with source_id := b, target_id := a } := by
  unfold mkLink
  rw [hsymm nb na, min_comm nb.isl_bandwidth_gbps na.isl_bandwidth_gbps]

lemma lookupA_some_mem_keys {α : Type} (l : List (String × α)) (k : String) (v : α)
    (h : lookupA l k = some v) : k ∈ l.map Prod.fst := by
  unfold lookupA at h
  rcases hf : l.find? (fun p => p.1 == k) with _ | p
  · rw [hf] at h; simp at h
  · have hp := List.find?_some hf
    have hmem := List.mem_of_find?_eq_some hf
    simp only [beq_iff_eq] at hp
    exact hp ▸ List.mem_map_of_mem Prod.fst hmem

lemma processOuter_links_pair (dist : OrbitalNode → OrbitalNode → ℚ)
    (hsymm : ∀ x y, dist x y = dist y x) (S : List String)
    (hinj : ∀ a b c d : String, a ∈ S → b ∈ S → c ∈ S → d ∈ S →
      pairKey a b = pairKey c d → a = c ∧ b = d) :
    ∀ (L : List String) (st : SpaceMesh) (a b : String) (na nb : OrbitalNode),
      (∀ x ∈ L, x ∈ S) → L.Nodup → a ∈ L → b ∈ L → a ≠ b →
      lookupA st.nodes a = some na → lookupA st.nodes b = some nb →
      (lookupA (processOuter dist L st).links (pairKey a b) =
        if acceptLink dist na nb = true then some (mkLink dist a b na nb)
        else lookupA st.links (pairKey a b)) ∧
      (lookupA (processOuter dist L st).links (pairKey b a) =
        if acceptLink dist na nb = true then
          some { mkLink dist a b na nb with source_id := b, target_id := a }
        else lookupA st.links (pairKey b a)) := by
  intro L
  induction L with
  | nil => intro st a b na nb _ _ ha; simp at ha
  | cons id1 rest ih =>
    intro st a b na nb hsub hnd ha hb hne hna hnb
    simp only [List.nodup_cons] at hnd
    have haS : a ∈ S := hsub a ha
    have hbS : b ∈ S := hsub b hb
    have hkne_ab : pairKey b a ≠ pairKey a b := by
      intro he
      exact hne ((hinj b a a b hbS haS haS hbS he).1).symm
    by_cases hid1a : id1 = a
    · subst hid1a
      have hbrest : b ∈ rest := by
        rcases List.mem_cons.mp hb with h | h
        · exact absurd h.symm hne
        · exact h
      have hkeys : ∀ x ∈ rest, x ≠ b →
          pairKey id1 x ≠ pairKey id1 b ∧ pairKey x id1 ≠ pairKey id1 b ∧
          pairKey id1 x ≠ pairKey b id1 ∧ pairKey x id1 ≠ pairKey b id1 := by
        intro x hx hxb
        have hxS : x ∈ S := hsub x (List.mem_cons_of_mem _ hx)
        refine ⟨?_, ?_, ?_, ?_⟩
        · intro he; exact hxb (hinj id1 x id1 b haS hxS haS hbS he).2
        · intro he; exact hne (hinj x id1 id1 b hxS haS haS hbS he).2
        · intro he; exact hne (hinj id1 x b id1 haS hxS hbS haS he).1
        · intro he; exact hxb (hinj x id1 b id1 hxS haS hbS haS he).1
      obtain ⟨hA, hB⟩ := processInner_links_hit dist id1 rest st b na nb hbrest hnd.2
        hna hnb hkne_ab hkeys
      have hrest_other_ab :
          lookupA (processOuter dist rest (processInner dist id1 rest st)).links
            (pairKey id1 b) =
          lookupA (processInner dist id1 rest st).links (pairKey id1 b) := by
        apply processOuter_links_other
        intro x hx y hy he
        have hxa := (hinj x y id1 b (hsub x (List.mem_cons_of_mem _ hx))
          (hsub y (List.mem_cons_of_mem _ hy)) haS hbS he).1
        exact hnd.1 (hxa ▸ hx)
      have hrest_other_ba :
          lookupA (processOuter dist rest (processInner dist id1 rest st)).links
            (pairKey b id1) =
          lookupA (processInner dist id1 rest st).links (pairKey b id1) := by
        apply processOuter_links_other
        intro x hx y hy he
        have hyb := (hinj x y b id1 (hsub x (List.mem_cons_of_mem _ hx))
          (hsub y (List.mem_cons_of_mem _ hy)) hbS haS he).2
        exact hnd.1 (hyb ▸ hy)
      rw [show processOuter dist (id1 :: rest) st =
        processOuter dist rest (processInner dist id1 rest st) from rfl]
      rw [hrest_other_ab, hrest_other_ba, hA, hB]
      exact ⟨rfl, rfl⟩
    · by_cases hid1b : id1 = b
      · subst hid1b
        have harest : a ∈ rest := by
          rcases List.mem_cons.mp ha with h | h
          · exact absurd h.symm hid1a
          · exact h
        have hkne_ba : pairKey a id1 ≠ pairKey id1 a := by
          intro he
          exact hne (hinj a id1 id1 a haS hbS hbS haS he).1
        have hkeys : ∀ x ∈ rest, x ≠ a →
            pairKey id1 x ≠ pairKey id1 a ∧ pairKey x id1 ≠ pairKey id1 a ∧
            pairKey id1 x ≠ pairKey a id1 ∧ pairKey x id1 ≠ pairKey a id1 := by
          intro x hx hxa
          have hxS : x ∈ S := hsub x (List.mem_cons_of_mem _ hx)
          refine ⟨?_, ?_, ?_, ?_⟩
          · intro he; exact hxa (hinj id1 x id1 a hbS hxS hbS haS he).2
          · intro he; exact hne ((hinj x id1 id1 a hxS hbS hbS haS he).2).symm
          · intro he; exact hne ((hinj id1 x a id1 hbS hxS haS hbS he).1).symm
          · intro he; exact hxa (hinj x id1 a id1 hxS hbS haS hbS he).1
        obtain ⟨hA, hB⟩ := processInner_links_hit dist id1 rest st a nb na harest
          hnd.2 hnb hna hkne_ba hkeys
        have hrest_other_ba :
            lookupA (processOuter dist rest (processInner dist id1 rest st)).links
              (pairKey id1 a) =
            lookupA (processInner dist id1 rest st).links (pairKey id1 a) := by
          apply processOuter_links_other
          intro x hx y hy he
          have hxb := (hinj x y id1 a (hsub x (List.mem_cons_of_mem _ hx))
            (hsub y (List.mem_cons_of_mem _ hy)) hbS haS he).1
          exact hnd.1 (hxb ▸ hx)
        have hrest_other_ab :
            lookupA (processOuter dist rest (processInner dist id1 rest st)).links
              (pairKey a id1) =
            lookupA (processInner dist id1 rest st).links (pairKey a id1) := by
          apply processOuter_links_other
          intro x hx y hy he
          have hyb := (hinj x y a id1 (hsub x (List.mem_cons_of_mem _ hx))
            (hsub y (List.mem_cons_of_mem _ hy)) haS hbS he).2
          exact hnd.1 (hyb ▸ hy)
        have haccs := acceptLink_symm dist hsymm nb na
        rw [show processOuter dist (id1 :: rest) st =
          processOuter dist rest (processInner dist id1 rest st) from rfl]
        constructor
        · rw [hrest_other_ab, hB]
          rw [show acceptLink dist nb na = acceptLink dist na nb from
            (acceptLink_symm dist hsymm na nb).symm]
          by_cases hacc : acceptLink dist na nb = true
          · rw [if_pos hacc, if_pos hacc]
            rw [mkLink_swap dist hsymm id1 a nb na]
          · rw [if_neg hacc, if_neg hacc]
        · rw [hrest_other_ba, hA]
          rw [show acceptLink dist nb na = acceptLink dist na nb from
            (acceptLink_symm dist hsymm na nb).symm]
          by_cases hacc : acceptLink dist na nb = true
          · rw [if_pos hacc, if_pos hacc]
            rw [mkLink_swap dist hsymm a id1 na nb]
          · rw [if_neg hacc, if_neg hacc]
      · have harest : a ∈ rest := by
          rcases List.mem_cons.mp ha with h | h
          · exact absurd h.symm hid1a
          · exact h
        have hbrest : b ∈ rest := by
          rcases List.mem_cons.mp hb with h | h
          · exact absurd h.symm hid1b
          · exact h
        have hid1S : id1 ∈ S := hsub id1 (List.mem_cons_self _ _)
        have hinner_ab :
            lookupA (processInner dist id1 rest st).links (pairKey a b) =
            lookupA st.links (pairKey a b) := by
          apply processInner_links_other
          intro x hx
          have hxS : x ∈ S := hsub x (List.mem_cons_of_mem _ hx)
          constructor
          · intro he; exact hid1a (hinj id1 x a b hid1S hxS haS hbS he).1
          · intro he; exact hid1b (hinj x id1 a b hxS hid1S haS hbS he).2
        have hinner_ba :
            lookupA (processInner dist id1 rest st).links (pairKey b a) =
            lookupA st.links (pairKey b a) := by
          apply processInner_links_other
          intro x hx
          have hxS : x ∈ S := hsub x (List.mem_cons_of_mem _ hx)
          constructor
          · intro he; exact hid1b (hinj id1 x b a hid1S hxS hbS haS he).1
          · intro he; exact hid1a (hinj x id1 b a hxS hid1S hbS haS he).2
        have hnodes := processInner_nodes dist id1 rest st
        have := ih (processInner dist id1 rest st) a b na nb
          (fun x hx => hsub x (List.mem_cons_of_mem _ hx)) hnd.2 harest hbrest hne
          (by rw [hnodes]; exact hna) (by rw [hnodes]; exact hnb)
        rw [show processOuter dist (id1 :: rest) st =
          processOuter dist rest (processInner dist id1 rest st) from rfl]
        rw [this.1, this.2, hinner_ab, hinner_ba]
        exact ⟨rfl, rfl⟩

/-- C6 (amended): after `update_topology`, provided the formatted `"id1-id2"` link
keys of distinct registered ordered pairs do not collide (e.g. no id contains `'-'`)
and the abstract pair distance is symmetric, then for every pair of distinct
registered nodes a link record under their key exists iff their separation is within
the smaller of the two ISL ranges and they have line-of-sight; and every accepted
link is present under both directed keys with identical distance, latency and
bandwidth (the reverse record differs only in source/target). -/
theorem update_topology_link_invariant :
    ∀ (dist : OrbitalNode → OrbitalNode → ℚ) (mesh : SpaceMesh),
      (∀ x y, dist x y = dist y x) →
      (mesh.nodes.map Prod.fst).Nodup →
      (∀ a b c d : String, a ∈ mesh.nodes.map Prod.fst → b ∈ mesh.nodes.map Prod.fst →
        c ∈ mesh.nodes.map Prod.fst → d ∈ mesh.nodes.map Prod.fst →
        pairKey a b = pairKey c d → a = c ∧ b = d) →
      ∀ (a b : String) (na nb : OrbitalNode), a ≠ b →
        lookupA mesh.nodes a = some na → lookupA mesh.nodes b = some nb →
        (((lookupA (mesh.update_topology dist).links (pairKey a b)).isSome = true) ↔
          acceptLink dist na nb = true) ∧
        (acceptLink dist na nb = true →
          lookupA (mesh.update_topology dist).links (pairKey a b) =
            some (mkLink dist a b na nb) ∧
          lookupA (mesh.update_topology dist).links (pairKey b a) =
            some { mkLink dist a b na nb with source_id := b, target_id := a }) := by
  intro dist mesh hsymm hnd hinj a b na nb hne hna hnb
  have haL : a ∈ mesh.nodes.map Prod.fst := lookupA_some_mem_keys _ _ _ hna
  have hbL : b ∈ mesh.nodes.map Prod.fst := lookupA_some_mem_keys _ _ _ hnb
  have hpair := processOuter_links_pair dist hsymm (mesh.nodes.map Prod.fst) hinj
    (mesh.nodes.map Prod.fst)
    (⟨mesh.default_isl_range_km, mesh.nodes, [],
      mesh.nodes.map (fun p => (p.1, []))⟩ : SpaceMesh)
    a b na nb (fun x hx => hx) hnd haL hbL hne hna hnb
  have hempty : ∀ K, lookupA ([] : List (String × ISLLink)) K = Option.none := by
    intro K; rfl
  have hup : (mesh.update_topology dist).links =
      (processOuter dist (mesh.nodes.map Prod.fst)
        (⟨mesh.default_isl_range_km, mesh.nodes, [],
          mesh.nodes.map (fun p => (p.1, []))⟩ : SpaceMesh)).links := by
    unfold SpaceMesh.update_topology
    rfl
  rw [hup]
  obtain ⟨hAB, hBA⟩ := hpair
  constructor
  · rw [hAB]
    by_cases hacc : acceptLink dist na nb = true
    · simp [hacc]
    · simp only [hacc, Bool.false_eq_true, if_false, hempty]
      simp [hacc]
  · intro hacc
    rw [hAB, hBA, if_pos hacc, if_pos hacc]
    exact ⟨rfl, rfl⟩

/-- The two-node base mesh used by the C6 witness. -/
def meshBase : SpaceMesh := ⟨5000, [("a", nodeA), ("b", nodeB)], [], [("a", []), ("b", [])]⟩

/-- Witness for C6 (amended): the two-node mesh with collision-free ids. -/
theorem update_topology_link_invariant_witness :
    ("a" ≠ "b") ∧
    (((lookupA (meshBase.update_topology distC).links (pairKey "a" "b")).isSome = true ↔
        acceptLink distC nodeA nodeB = true) ∧
      (acceptLink distC nodeA nodeB = true →
        lookupA (meshBase.update_topology distC).links (pairKey "a" "b") =
          some (mkLink distC "a" "b" nodeA nodeB) ∧
        lookupA (meshBase.update_topology distC).links (pairKey "b" "a") =
          some { mkLink distC "a" "b" nodeA nodeB with
            source_id := "b", target_id := "a" })) := by
  have hinj' : ∀ a ∈ meshBase.nodes.map Prod.fst, ∀ b ∈ meshBase.nodes.map Prod.fst,
      ∀ c ∈ meshBase.nodes.map Prod.fst, ∀ d ∈ meshBase.nodes.map Prod.fst,
      pairKey a b = pairKey c d → a = c ∧ b = d := by decide
  exact ⟨by decide,
    update_topology_link_invariant distC meshBase (fun _ _ => rfl) (by decide)
      (fun a b c d ha hb hc hd => hinj' a ha b hb c hc d hd)
      "a" "b" nodeA nodeB (by decide) (by decide) (by decide)⟩

/-- Node used in the C6 counterexample mesh (all share altitude 550 km, 5000 km ISL
range, 10 Gbps). -/
def nodeW (id : String) : OrbitalNode := ⟨id, 550, 51, 0, 0, 5000, 10, 10⟩

/-- Abstract pair distances for the C6 counterexample: the pair `{x, y-z}` is 1000 km
apart, the pair `{x-y, z}` 2000 km, every other pair far out of range. -/
def dist4 (n1 n2 : OrbitalNode) : ℚ :=
  if (n1.node_id = "x" ∧ n2.node_id = "y-z") ∨
      (n1.node_id = "y-z" ∧ n2.node_id = "x") then 1000
  else if (n1.node_id = "x-y" ∧ n2.node_id = "z") ∨
      (n1.node_id = "z" ∧ n2.node_id = "x-y") then 2000
  else 1000000

/-- Four registered nodes whose formatted pair keys collide
(`pairKey "x" "y-z" = "x-y-z" = pairKey "x-y" "z"`), topology rebuilt. -/
def mesh4 : SpaceMesh := SpaceMesh.update_topology dist4
  ⟨5000, [("x", nodeW "x"), ("x-y", nodeW "x-y"), ("y-z", nodeW "y-z"), ("z", nodeW "z")],
    [], [("x", []), ("x-y", []), ("y-z", []), ("z", [])]⟩

set_option maxHeartbeats 2000000 in
/-- C6 (counterexample to the claim as stated): with node ids containing `'-'`, the
formatted link keys of the accepted pairs `{x, y-z}` (1000 km) and `{x-y, z}`
(2000 km) collide on `"x-y-z"`, and the second insertion overwrites the first.  The
accepted link between `x` and `y-z` is then *not* present in both directions with
identical distance: the forward key `"x-y-z"` now holds a 2000 km record with source
`"x-y"`, while the reverse key `"y-z-x"` still holds the 1000 km record. -/
theorem update_topology_key_collision :
    (pairKey "x" "y-z" = "x-y-z") ∧ (pairKey "x-y" "z" = "x-y-z") ∧
    ((lookupA mesh4.links "x-y-z").map (fun l => l.distance_km) = some 2000) ∧
    ((lookupA mesh4.links "x-y-z").map (fun l => l.source_id) = some "x-y") ∧
    ((lookupA mesh4.links "y-z-x").map (fun l => l.distance_km) = some 1000) ∧
    ((2000 : ℚ) ≠ 1000) := by
  refine ⟨by decide, by decide, ?_, ?_, ?_, by norm_num⟩ <;>
    norm_num +decide [mesh4, nodeW, dist4, SpaceMesh.update_topology, processOuter,
      processInner, processPair, lookupA, acceptLink, has_line_of_sight, losRadicand,
      earthRadiusKm, mkLink, adjInsert, pairKey, speedOfLightKmS, min_def]

end RotaStellar
